import Mathlib

/-!
The rlottie model: keyframe evaluation and shape descriptors.

Shallow embedding of `src/lottie/lottiemodel.h` and of the pixel loop of
`src/vector/vimageloader.cpp`.

Conventions of the embedding:
* C++ `float` values are exact rationals (`ℚ`); C++ `int` frame numbers are
  unbounded integers (`Int`).  Rounding and overflow are outside the model.
* An operation whose C++ behaviour is undefined or leaves the rational model
  (a read past the end of a `std::vector`, `front()` of an empty vector, a
  dereferenced null `shared_ptr`, a float division by zero) yields `none`;
  every function that can reach one returns an `Option`.
* A C++ template parameter with overload resolution or specialisation is a
  type class; each instance is the overload the C++ compiler would pick.
-/

namespace Rlottie

/-! ## Value types -/

/-- Float division `a / b` of the source.  A zero divisor produces NaN or an
infinity, which the rational model does not contain: the result is `none`. -/
def fdiv (a b : ℚ) : Option ℚ :=
  if b = 0 then none else some (a / b)

/-- Conversion of a float to a C++ `int`: truncation toward zero. -/
def truncToInt (q : ℚ) : Int :=
  if 0 ≤ q then ⌊q⌋ else ⌈q⌉

/-- The point type `VPointF` of `vpoint.h` (a type declaration outside `src/`):
two float coordinates, value-initialised to the origin, with componentwise
`+`, `-` and scaling by a float. -/
structure VPointF where
  mx : ℚ := 0
  my : ℚ := 0
deriving DecidableEq, Repr

instance : Add VPointF := ⟨fun p q => ⟨p.mx + q.mx, p.my + q.my⟩⟩
instance : Sub VPointF := ⟨fun p q => ⟨p.mx - q.mx, p.my - q.my⟩⟩
instance : HMul ℚ VPointF VPointF := ⟨fun m p => ⟨p.mx * m, p.my * m⟩⟩

/-- The class `LottieColor`: three float channels, each defaulting to 1. -/
structure LottieColor where
  r : ℚ := 1
  g : ℚ := 1
  b : ℚ := 1
deriving DecidableEq, Repr

/-- The operator `operator-(LottieColor, LottieColor)`. -/
instance : Sub LottieColor := ⟨fun c1 c2 => ⟨c1.r - c2.r, c1.g - c2.g, c1.b - c2.b⟩⟩
/-- The operator `operator+(LottieColor, LottieColor)`. -/
instance : Add LottieColor := ⟨fun c1 c2 => ⟨c1.r + c2.r, c1.g + c2.g, c1.b + c2.b⟩⟩
/-- The operator `operator*(float, LottieColor)`. -/
instance : HMul ℚ LottieColor LottieColor := ⟨fun m c => ⟨c.r * m, c.g * m, c.b * m⟩⟩

/-- The class `LottieShapeData`: the flat point buffer and the closed flag. -/
structure LottieShapeData where
  mPoints : List VPointF := []
  mClosed : Bool := false
deriving DecidableEq, Repr

/-! ## Interpolation -/

/-- The function template `lerp<T>`: `start + t * (end - start)`. -/
def lerp {T : Type} [Add T] [Sub T] [HMul ℚ T T] (start end_ : T) (t : ℚ) : T :=
  start + t * (end_ - start)

/-- The body of the `for` loop of `lerp(LottieShapeData)` at index `i`: both
buffers are read at `i` and the interpolated point is pushed onto the result.
A read at an index outside a buffer is `none`. -/
def lerpShapeStep (start end_ : LottieShapeData) (t : ℚ)
    (result : LottieShapeData) (i : Nat) : Option LottieShapeData := do
  let s ← start.mPoints[i]?
  let e ← end_.mPoints[i]?
  pure { result with mPoints := result.mPoints ++ [s + t * (e - s)] }

/-- The overload `lerp(const LottieShapeData&, const LottieShapeData&, float)`.
The guard compares `start.mPoints.size()` with itself, as the source does; the
loop runs `i` over `0 .. start.mPoints.size() - 1` on a default-constructed
result. -/
def lerpShape (start end_ : LottieShapeData) (t : ℚ) : Option LottieShapeData :=
  if start.mPoints.length ≠ start.mPoints.length then
    some {}
  else
    (List.range start.mPoints.length).foldlM (lerpShapeStep start end_ t) {}

/-- The type parameter `T` of the keyframe templates: which `lerp` overload a
call `lerp(start, end, t)` resolves to at `T`, and the value `T()`. -/
class Interpolable (T : Type) where
  /-- The call `lerp(start, end, t)` at type `T`. -/
  lerp : T → T → ℚ → Option T
  /-- The value-initialised `T()`. -/
  init : T

/-- Instance at `T = float`: the template `lerp`, and `float()` is 0. -/
instance : Interpolable ℚ where
  lerp := fun s e t => some (Rlottie.lerp s e t)
  init := 0

/-- Instance at `T = int`: the template `lerp`, whose float result `start + t * (end - start)`
is converted to the `int` return type; `int()` is 0.  The float expression is
taken in exact arithmetic before the conversion, so this is the source's result
only where its binary32 operations are exact (as for `0 + 0.5 * 1`); elsewhere
the source may differ by one. -/
instance : Interpolable Int where
  lerp := fun s e t => some (truncToInt ((s : ℚ) + t * (((e - s : Int)) : ℚ)))
  init := 0

/-- Instance at `T = LottieColor`: the template `lerp` with the colour operators;
`LottieColor()` has every channel 1. -/
instance : Interpolable LottieColor where
  lerp := fun s e t => some (Rlottie.lerp s e t)
  init := {}

/-- Instance at `T = LottieShapeData`: the non-template overload; `LottieShapeData()` is
the empty open descriptor. -/
instance : Interpolable LottieShapeData where
  lerp := lerpShape
  init := {}

/-! ## Keyframes -/

/-- The primary template `LOTKeyFrameValue<T>`. -/
structure LOTKeyFrameValue (T : Type) where
  mStartValue : T
  mEndValue : T
deriving Repr

/-- The member function `LOTKeyFrameValue<T>::value`. -/
def LOTKeyFrameValue.value {T : Type} [Interpolable T] (v : LOTKeyFrameValue T) (t : ℚ) :
    Option T :=
  Interpolable.lerp v.mStartValue v.mEndValue t

/-- Modelled from the spec: the cubic Bezier of `vbezier.h`, which is not under
`src/`.  `fromPoints` stores the four control points and `pointAt` samples the
position of the cubic Bezier at parameter `t`. -/
structure VBezier where
  p1 : VPointF
  p2 : VPointF
  p3 : VPointF
  p4 : VPointF
deriving DecidableEq, Repr

/-- Modelled from the spec: `VBezier::fromPoints`, the cubic Bezier with the
four given control points. -/
def VBezier.fromPoints (p1 p2 p3 p4 : VPointF) : VBezier := ⟨p1, p2, p3, p4⟩

/-- Modelled from the spec: `VBezier::pointAt`, the position of the cubic
Bezier at parameter `t`,
`(1-t)^3 p1 + 3 (1-t)^2 t p2 + 3 (1-t) t^2 p3 + t^3 p4`. -/
def VBezier.pointAt (b : VBezier) (t : ℚ) : VPointF :=
  ((1 - t) ^ 3 : ℚ) * b.p1 + ((3 * (1 - t) ^ 2 * t : ℚ) * b.p2
    + ((3 * (1 - t) * t ^ 2 : ℚ) * b.p3 + (t ^ 3 : ℚ) * b.p4))

/-- The specialisation `LOTKeyFrameValue<VPointF>`. -/
structure LOTKeyFrameValuePoint where
  mStartValue : VPointF
  mEndValue : VPointF
  mInTangent : VPointF := {}
  mOutTangent : VPointF := {}
  mPathKeyFrame : Bool := false
deriving DecidableEq, Repr

/-- The member function `LOTKeyFrameValue<VPointF>::value`. -/
def LOTKeyFrameValuePoint.value (v : LOTKeyFrameValuePoint) (t : ℚ) : VPointF :=
  if v.mPathKeyFrame then
    (VBezier.fromPoints v.mStartValue (v.mStartValue + v.mOutTangent)
      (v.mEndValue + v.mInTangent) v.mEndValue).pointAt t
  else
    lerp v.mStartValue v.mEndValue t

/-- What `LOTKeyFrame<T>` and `LOTAnimInfo<T>` use of their member
`LOTKeyFrameValue<T> mValue` (of type `V` here) and of `T`. -/
class KeyFrameValue (V : Type) (T : outParam Type) where
  /-- The member `mStartValue`. -/
  mStartValue : V → T
  /-- The member `mEndValue`. -/
  mEndValue : V → T
  /-- The member function `value(float t)`. -/
  value : V → ℚ → Option T
  /-- The value-initialised `T()`. -/
  init : T

/-- The primary template at an interpolable `T`. -/
instance {T : Type} [Interpolable T] : KeyFrameValue (LOTKeyFrameValue T) T where
  mStartValue := fun v => v.mStartValue
  mEndValue := fun v => v.mEndValue
  value := fun v t => v.value t
  init := Interpolable.init

/-- The specialisation at `VPointF`; `VPointF()` is the origin. -/
instance : KeyFrameValue LOTKeyFrameValuePoint VPointF where
  mStartValue := fun v => v.mStartValue
  mEndValue := fun v => v.mEndValue
  value := fun v t => some (v.value t)
  init := {}

/-- The class template `LOTKeyFrame<T>`, with `V` for `LOTKeyFrameValue<T>`.
The interpolator is a `shared_ptr<VInterpolator>`: `none` is the null pointer,
`some g` points to an interpolator whose `value` is `g` (`vinterpolator.h` is an
external easing evaluator). -/
structure LOTKeyFrame (V : Type) where
  mStartFrame : Int := 0
  mEndFrame : Int := 0
  mInterpolator : Option (ℚ → ℚ) := none
  mValue : V

/-- The raw progress `float(frameNo - mStartFrame) / float(mEndFrame - mStartFrame)`
of `LOTKeyFrame<T>::value`. -/
def LOTKeyFrame.rawProgress {V : Type} (k : LOTKeyFrame V) (frameNo : Int) : Option ℚ :=
  fdiv ((frameNo - k.mStartFrame : Int) : ℚ) ((k.mEndFrame - k.mStartFrame : Int) : ℚ)

/-- The member function `LOTKeyFrame<T>::value`. -/
def LOTKeyFrame.value {V T : Type} [KeyFrameValue V T] (k : LOTKeyFrame V) (frameNo : Int) :
    Option T := do
  let p ← k.rawProgress frameNo
  let interpolator ← k.mInterpolator
  let progress := interpolator p
  KeyFrameValue.value k.mValue progress

/-- The range-`for` loop of `LOTAnimInfo<T>::value`: the first keyframe in list
order with `mStartFrame ≤ frameNo < mEndFrame` is evaluated; when the loop ends
without one the function returns `T()`. -/
def LOTAnimInfo.scan {V T : Type} [KeyFrameValue V T] :
    List (LOTKeyFrame V) → Int → Option T
  | [], _ => some (KeyFrameValue.init V)
  | keyFrame :: rest, frameNo =>
    if frameNo ≥ keyFrame.mStartFrame ∧ frameNo < keyFrame.mEndFrame then
      keyFrame.value frameNo
    else
      LOTAnimInfo.scan rest frameNo

/-- The class template `LOTAnimInfo<T>`. -/
structure LOTAnimInfo (V : Type) where
  mKeyFrames : List (LOTKeyFrame V)

/-- The member function `LOTAnimInfo<T>::value`. -/
def LOTAnimInfo.value {V T : Type} [KeyFrameValue V T] (a : LOTAnimInfo V) (frameNo : Int) :
    Option T := do
  let front ← a.mKeyFrames.head?
  if front.mStartFrame ≥ frameNo then
    some (KeyFrameValue.mStartValue front.mValue)
  else do
    let back ← a.mKeyFrames.getLast?
    if back.mEndFrame ≤ frameNo then
      some (KeyFrameValue.mEndValue back.mValue)
    else
      LOTAnimInfo.scan a.mKeyFrames frameNo

/-- The same keyframes with every interpolator pointer replaced by `g`
(start/end frames and values unchanged). -/
def LOTAnimInfo.withInterpolators {V : Type} (a : LOTAnimInfo V)
    (g : LOTKeyFrame V → Option (ℚ → ℚ)) : LOTAnimInfo V :=
  ⟨a.mKeyFrames.map fun k => { k with mInterpolator := g k }⟩

/-! ## Paths -/

/-- Modelled from the spec: one operation of a concrete path.  The class `VPath`
of `vpath.h` is not under `src/`; the spec describes a path as a sequence of
move, cubic and close operations. -/
inductive VPathElement where
  | moveTo (p : VPointF)
  | cubicTo (c1 c2 e : VPointF)
  | close
deriving DecidableEq, Repr

/-- Modelled from the spec: the class `VPath` of `vpath.h`, which is not under
`src/`: the sequence of operations issued so far, and the point and command
storage reserved by `reserve`. -/
structure VPath where
  mElements : List VPathElement := []
  mPointCapacity : Nat := 0
  mElementCapacity : Nat := 0
deriving DecidableEq, Repr

/-- Modelled from the spec: `VPath::reset` empties the path (reserved storage
is kept, as `std::vector::clear` keeps it). -/
def VPath.reset (path : VPath) : VPath := { path with mElements := [] }

/-- Modelled from the spec: `VPath::reserve(pts, elms)` makes the reserved
point storage at least `pts` and the reserved command storage at least `elms`. -/
def VPath.reserve (path : VPath) (pts elms : Nat) : VPath :=
  { path with
    mPointCapacity := max path.mPointCapacity pts
    mElementCapacity := max path.mElementCapacity elms }

/-- Modelled from the spec: `VPath::moveTo` appends a move operation. -/
def VPath.moveTo (path : VPath) (p : VPointF) : VPath :=
  { path with mElements := path.mElements ++ [VPathElement.moveTo p] }

/-- Modelled from the spec: `VPath::cubicTo` appends a cubic operation (two
controls, one endpoint). -/
def VPath.cubicTo (path : VPath) (c1 c2 e : VPointF) : VPath :=
  { path with mElements := path.mElements ++ [VPathElement.cubicTo c1 c2 e] }

/-- Modelled from the spec: `VPath::close` appends a close operation. -/
def VPath.close (path : VPath) : VPath :=
  { path with mElements := path.mElements ++ [VPathElement.close] }

/-- The loop `for (int i = 1; i < size; i += 3) path.cubicTo(points[i], points[i+1], points[i+2])`
of `LottieShapeData::toPath`, entered at index `i`.  The first argument bounds
the number of loop tests; running out of it is `none`, as is a read outside the
buffer. -/
def toPathLoop (points : List VPointF) (size : Nat) : Nat → Nat → VPath → Option VPath
  | 0, _, _ => none
  | fuel + 1, i, path =>
    if i < size then do
      let c1 ← points[i]?
      let c2 ← points[i + 1]?
      let e ← points[i + 2]?
      toPathLoop points size fuel (i + 3) (path.cubicTo c1 c2 e)
    else
      some path

/-- The member function `LottieShapeData::toPath`, returning the path it leaves
in its reference parameter.  The loop is given `size` loop tests, more than the
`(size - 1) / 3 + 1` it makes. -/
def LottieShapeData.toPath (d : LottieShapeData) (path : VPath) : Option VPath :=
  let path := path.reset
  if d.mPoints.isEmpty then
    some path
  else do
    let size := d.mPoints.length
    let path := path.reserve (size + 1) (size / 3 + 2)
    let p0 ← d.mPoints[0]?
    let path := path.moveTo p0
    let path ← toPathLoop d.mPoints size size 1 path
    if d.mClosed then some path.close else some path

/-! ## Animatable properties -/

/-- The class template `LOTAnimatable<T>`, with `V` for `LOTKeyFrameValue<T>`.
The member `mAnimInfo` is a `unique_ptr<LOTAnimInfo<T>>`: `none` is the null
pointer.  `mPropertyIndex` is not read by evaluation. -/
structure LOTAnimatable (V T : Type) where
  mValue : T
  mPropertyIndex : Int := 0
  mAnimInfo : Option (LOTAnimInfo V) := none

/-- The member function `LOTAnimatable<T>::isStatic`:
`if (mAnimInfo) return false; else return true;`. -/
def LOTAnimatable.isStatic {V T : Type} (p : LOTAnimatable V T) : Bool :=
  if p.mAnimInfo.isSome then false else true

/-- The member function `LOTAnimatable<T>::value`. -/
def LOTAnimatable.value {V T : Type} [KeyFrameValue V T] (p : LOTAnimatable V T)
    (frameNo : Int) : Option T :=
  if p.isStatic then
    some p.mValue
  else do
    let animInfo ← p.mAnimInfo
    animInfo.value frameNo

/-! ## Nodes -/

/-- The enumeration `LOTData::Type`. -/
inductive LOTDataType where
  | Composition | Layer | ShapeGroup | Transform | Fill | Stroke | GFill | GStroke
  | Rect | Ellipse | Shape | Polystar | Trim | Repeater
deriving DecidableEq, Repr

/-- The class `LOTData`. -/
structure LOTData where
  mStatic : Bool := true
  mType : LOTDataType

/-- The member function `LOTData::isStatic`. -/
def LOTData.isStatic (d : LOTData) : Bool := d.mStatic

/-- Conversion of a `double` to the unsigned `size_t`: the fractional part is
discarded, and a truncated value that is negative cannot be represented
(undefined behaviour, `none`).  The values converted here lie between `long`
frame numbers, so the upper end of the `size_t` range is never reached. -/
def toSizeT (q : ℚ) : Option Nat :=
  if truncToInt q < 0 then none else some (truncToInt q).toNat

/-- The class `LOTCompositionData`, with the members that its timeline queries
read (`long` frames, `float` frame rate).  The constructor fixes the node type;
`mFrameRate` has no initialiser in the source. -/
structure LOTCompositionData extends LOTData where
  mType := LOTDataType.Composition
  mStartFrame : Int := 0
  mEndFrame : Int := 0
  mFrameRate : ℚ

/-- The member function `LOTCompositionData::frameDuration`. -/
def LOTCompositionData.frameDuration (c : LOTCompositionData) : Int :=
  c.mEndFrame - c.mStartFrame - 1

/-- The member function `LOTCompositionData::frameRate`. -/
def LOTCompositionData.frameRate (c : LOTCompositionData) : ℚ := c.mFrameRate

/-- The member function `LOTCompositionData::startFrame`. -/
def LOTCompositionData.startFrame (c : LOTCompositionData) : Int := c.mStartFrame

/-- The member function `LOTCompositionData::endFrame`. -/
def LOTCompositionData.endFrame (c : LOTCompositionData) : Int := c.mEndFrame

/-- The member function `LOTCompositionData::duration`: both branches of the
conditional have the floating type of `frameDuration() / frameRate()`. -/
def LOTCompositionData.duration (c : LOTCompositionData) : Option ℚ :=
  if c.isStatic then
    some (c.startFrame : ℚ)
  else
    fdiv (c.frameDuration : ℚ) c.frameRate

/-- The member function `LOTCompositionData::frameAtPos`: both branches of the
conditional have type `double`, and the result is converted to `size_t`.  The
product and sum are taken in exact arithmetic; the source rounds each to
`double`, which is exact at `pos` 0 and 1 and can lift an interior value lying
just below a whole frame onto that frame. -/
def LOTCompositionData.frameAtPos (c : LOTCompositionData) (pos : ℚ) : Option Nat :=
  let pos := if pos < 0 then 0 else pos
  let pos := if pos > 1 then 1 else pos
  toSizeT (if c.isStatic then (c.startFrame : ℚ)
    else (c.startFrame : ℚ) + pos * (c.frameDuration : ℚ))

/-- The class `LOTModel`; `mRoot` is a `shared_ptr<LOTCompositionData>`, `none`
the null pointer. -/
structure LOTModel where
  mRoot : Option LOTCompositionData

/-- The member function `LOTModel::isStatic`. -/
def LOTModel.isStatic (m : LOTModel) : Option Bool := do
  let root ← m.mRoot
  some root.isStatic

/-- The member function `LOTModel::frameAtPos`. -/
def LOTModel.frameAtPos (m : LOTModel) (pos : ℚ) : Option Nat := do
  let root ← m.mRoot
  root.frameAtPos pos

/-- The enumeration `VPath::Direction` of `vpath.h` (a type declaration outside
`src/`). -/
inductive VPathDirection where
  | CCW | CW
deriving DecidableEq, Repr

/-- The class `LOTPath`, the base of the four shape primitive nodes. -/
structure LOTPath extends LOTData where
  mDirection : Int := 1

/-- The member function `LOTPath::direction`. -/
def LOTPath.direction (p : LOTPath) : VPathDirection :=
  if p.mDirection = 3 then VPathDirection.CCW else VPathDirection.CW

/-- The class `LOTShapeData` (a shape path node). -/
structure LOTShapeData extends LOTPath where
  mType := LOTDataType.Shape
  mShape : LOTAnimatable (LOTKeyFrameValue LottieShapeData) LottieShapeData := { mValue := {} }

/-- The class `LOTRectData`. -/
structure LOTRectData extends LOTPath where
  mType := LOTDataType.Rect
  mPos : LOTAnimatable LOTKeyFrameValuePoint VPointF := { mValue := {} }
  mSize : LOTAnimatable LOTKeyFrameValuePoint VPointF := { mValue := {} }
  mRound : LOTAnimatable (LOTKeyFrameValue ℚ) ℚ := { mValue := 0 }

/-- The class `LOTEllipseData`. -/
structure LOTEllipseData extends LOTPath where
  mType := LOTDataType.Ellipse
  mPos : LOTAnimatable LOTKeyFrameValuePoint VPointF := { mValue := {} }
  mSize : LOTAnimatable LOTKeyFrameValuePoint VPointF := { mValue := {} }

/-- The enumeration `LOTPolystarData::PolyType`. -/
inductive PolyType where
  | Star | Polygon
deriving DecidableEq, Repr

/-- The class `LOTPolystarData`.  Its own member `mType` (the poly type, which
hides `LOTData::mType` in the source) is named `mPolyType` here. -/
structure LOTPolystarData extends LOTPath where
  mType := LOTDataType.Polystar
  mPolyType : PolyType := PolyType.Polygon
  mPos : LOTAnimatable LOTKeyFrameValuePoint VPointF := { mValue := {} }
  mPointCount : LOTAnimatable (LOTKeyFrameValue ℚ) ℚ := { mValue := 0 }
  mInnerRadius : LOTAnimatable (LOTKeyFrameValue ℚ) ℚ := { mValue := 0 }
  mOuterRadius : LOTAnimatable (LOTKeyFrameValue ℚ) ℚ := { mValue := 0 }
  mInnerRoundness : LOTAnimatable (LOTKeyFrameValue ℚ) ℚ := { mValue := 0 }
  mOuterRoundness : LOTAnimatable (LOTKeyFrameValue ℚ) ℚ := { mValue := 0 }
  mRotation : LOTAnimatable (LOTKeyFrameValue ℚ) ℚ := { mValue := 0 }

/-- The C library function `fmod(x, y)` for a non-zero `y`: `x - n * y` where
`n` is `x / y` truncated toward zero, so the result has the sign of `x`. -/
def fmod (x y : ℚ) : ℚ :=
  x - (truncToInt (x / y) : ℚ) * y

/-- The enumeration `LOTTrimData::TrimType`. -/
inductive TrimType where
  | Simultaneously | Individually
deriving DecidableEq, Repr

/-- The class `LOTTrimData`. -/
structure LOTTrimData extends LOTData where
  mType := LOTDataType.Trim
  mStart : LOTAnimatable (LOTKeyFrameValue ℚ) ℚ := { mValue := 0 }
  mEnd : LOTAnimatable (LOTKeyFrameValue ℚ) ℚ := { mValue := 0 }
  mOffset : LOTAnimatable (LOTKeyFrameValue ℚ) ℚ := { mValue := 0 }
  mTrimType : TrimType := TrimType.Simultaneously

/-- The member function `LOTTrimData::start`. -/
def LOTTrimData.start (t : LOTTrimData) (frameNo : Int) : Option ℚ := do
  let v ← t.mStart.value frameNo
  some (v / 100)

/-- The member function `LOTTrimData::end`. -/
def LOTTrimData.end_ (t : LOTTrimData) (frameNo : Int) : Option ℚ := do
  let v ← t.mEnd.value frameNo
  some (v / 100)

/-- The member function `LOTTrimData::offset`. -/
def LOTTrimData.offset (t : LOTTrimData) (frameNo : Int) : Option ℚ := do
  let v ← t.mOffset.value frameNo
  some (fmod v 360 / 360)

/-- The member function `LOTTrimData::type`. -/
def LOTTrimData.type (t : LOTTrimData) : TrimType := t.mTrimType

/-! ## Control flow of the keyframe lookup -/

/-- The keyframe that the range-`for` loop of `LOTAnimInfo<T>::value` evaluates:
the first one in list order that passes the loop's test, `none` when the loop
ends without one (the function then returns `T()`). -/
def LOTAnimInfo.scanSelect {V : Type} : List (LOTKeyFrame V) → Int → Option (LOTKeyFrame V)
  | [], _ => none
  | keyFrame :: rest, frameNo =>
    if frameNo ≥ keyFrame.mStartFrame ∧ frameNo < keyFrame.mEndFrame then
      some keyFrame
    else
      LOTAnimInfo.scanSelect rest frameNo

/-- The keyframe to whose `value` the call `LOTAnimInfo<T>::value(frameNo)`
delegates, along the control flow of the source: `none` when the call returns
from one of the two clamping tests or from the fallback `return T()`, or when
there is no keyframe at all. -/
def LOTAnimInfo.delegate {V : Type} (a : LOTAnimInfo V) (frameNo : Int) :
    Option (LOTKeyFrame V) := do
  let front ← a.mKeyFrames.head?
  if front.mStartFrame ≥ frameNo then
    none
  else do
    let back ← a.mKeyFrames.getLast?
    if back.mEndFrame ≤ frameNo then
      none
    else
      LOTAnimInfo.scanSelect a.mKeyFrames frameNo

/-! ## Buffer indices read by `toPath` -/

/-- The indices of `points` that the loop
`for (int i = 1; i < size; i += 3) path.cubicTo(points[i], points[i+1], points[i+2])`
of `LottieShapeData::toPath` reads when entered at index `i`, in order.  The
first argument bounds the number of loop tests, as in `toPathLoop`. -/
def toPathLoopReads (size : Nat) : Nat → Nat → List Nat
  | 0, _ => []
  | fuel + 1, i =>
    if i < size then
      i :: (i + 1) :: (i + 2) :: toPathLoopReads size fuel (i + 3)
    else
      []

/-- The indices of `mPoints` that `LottieShapeData::toPath` reads, in order:
none for an empty descriptor, otherwise index 0 for the move and then the
indices of the loop. -/
def LottieShapeData.toPathReads (d : LottieShapeData) : List Nat :=
  if d.mPoints.isEmpty then
    []
  else
    0 :: toPathLoopReads d.mPoints.length d.mPoints.length 1

/-! ## Gradients -/

/-- The class `LottieGradient`: a flat array of floats. -/
structure LottieGradient where
  mGradient : List ℚ := []
deriving DecidableEq, Repr

/-- The loop `for (auto &i : newG.mGradient) { i = i + *g2It; g2It++; }` of
`operator+(LottieGradient, LottieGradient)`: the first list is what is left of
`newG.mGradient`, the second what is left of `g2.mGradient` from `g2It` on.
Dereferencing `g2It` at the end of its array is a read outside it (`none`). -/
def gradientAddLoop : List ℚ → List ℚ → Option (List ℚ)
  | [], _ => some []
  | _ :: _, [] => none
  | i :: rest, x :: g2It => do
    let tail ← gradientAddLoop rest g2It
    some ((i + x) :: tail)

/-- The loop `for (auto &i : newG.mGradient) { i = i - *g2It; g2It++; }` of
`operator-(LottieGradient, LottieGradient)`. -/
def gradientSubLoop : List ℚ → List ℚ → Option (List ℚ)
  | [], _ => some []
  | _ :: _, [] => none
  | i :: rest, x :: g2It => do
    let tail ← gradientSubLoop rest g2It
    some ((i - x) :: tail)

/-- The operator `operator+(const LottieGradient&, const LottieGradient&)`. -/
def LottieGradient.add (g1 g2 : LottieGradient) : Option LottieGradient :=
  if g1.mGradient.length ≠ g2.mGradient.length then
    some g1
  else do
    let newG ← gradientAddLoop g1.mGradient g2.mGradient
    some { mGradient := newG }

/-- The operator `operator-(const LottieGradient&, const LottieGradient&)`. -/
def LottieGradient.sub (g1 g2 : LottieGradient) : Option LottieGradient :=
  if g1.mGradient.length ≠ g2.mGradient.length then
    some g1
  else do
    let newG ← gradientSubLoop g1.mGradient g2.mGradient
    some { mGradient := newG }

/-- The operator `operator*(float m, const LottieGradient&)`. -/
def LottieGradient.mul (m : ℚ) (g : LottieGradient) : LottieGradient :=
  { mGradient := g.mGradient.map fun i => i * m }

/-- The function template `lerp<T>` at `T = LottieGradient`:
`start + t * (end - start)` with the three gradient operators. -/
def lerpGradient (start end_ : LottieGradient) (t : ℚ) : Option LottieGradient := do
  let difference ← LottieGradient.sub end_ start
  LottieGradient.add start (LottieGradient.mul t difference)

/-- Instance at `T = LottieGradient`: the template `lerp` with the gradient
operators; `LottieGradient()` is the empty array. -/
instance : Interpolable LottieGradient where
  lerp := lerpGradient
  init := {}

/-! ## Image pixels (`vimageloader.cpp`) -/

/-- The body of the loop of `VImageLoader::Impl::premultiplyAlpha` for the
pixel at offset `pix` of the byte buffer `bits`: the four bytes are read, and
the first three are overwritten with `(c * a) / 255` computed in `int` and
stored as an `unsigned char` (modulo 256).  A read outside the buffer is
`none`. -/
def premultiplyPixel (bits : List Nat) (pix : Nat) : Option (List Nat) := do
  let r ← bits[pix]?
  let g ← bits[pix + 1]?
  let b ← bits[pix + 2]?
  let a ← bits[pix + 3]?
  let bits := bits.set pix ((r * a) / 255 % 256)
  let bits := bits.set (pix + 1) ((g * a) / 255 % 256)
  let bits := bits.set (pix + 2) ((b * a) / 255 % 256)
  some bits

/-- The loop `for (int i = 0; i < pixelCount; i++) { ...; pix += 4; }` of
`premultiplyAlpha`, entered at counter `i` with the pixel pointer at offset
`pix`.  The first argument bounds the number of loop tests; running out of it
is `none`. -/
def premultiplyAlphaLoop (pixelCount : Int) : Nat → Int → Nat → List Nat → Option (List Nat)
  | 0, _, _, _ => none
  | fuel + 1, i, pix, bits =>
    if i < pixelCount then do
      let bits ← premultiplyPixel bits pix
      premultiplyAlphaLoop pixelCount fuel (i + 1) (pix + 4) bits
    else
      some bits

/-- The member function `VImageLoader::Impl::premultiplyAlpha`, returning the
buffer it leaves behind its pointer parameter.  Bytes are naturals below 256;
`width * height` is taken in unbounded integers; the loop is given
`pixelCount + 1` loop tests, the number it makes. -/
def premultiplyAlpha (bits : List Nat) (width height : Int) : Option (List Nat) :=
  let pixelCount := width * height
  premultiplyAlphaLoop pixelCount (pixelCount.toNat + 1) 0 0 bits

/-! ## Concrete inputs -/

/-- A pointer to the linear interpolator (eased progress = raw progress). -/
def linearInterpolator : Option (ℚ → ℚ) := some fun p => p

/-- A float property whose only segment is the zero-length segment `[7,7]`
with start value 1 and end value 2. -/
def zeroLengthOnly : LOTAnimInfo (LOTKeyFrameValue ℚ) :=
  ⟨[{ mStartFrame := 7, mEndFrame := 7, mInterpolator := linearInterpolator,
      mValue := ⟨1, 2⟩ }]⟩

/-- The zero-length hold segment `[10,10]` of `holdProperty`, with start
value 2 and end value 7. -/
def holdSegment : LOTKeyFrame (LOTKeyFrameValue ℚ) :=
  { mStartFrame := 10, mEndFrame := 10, mInterpolator := linearInterpolator, mValue := ⟨2, 7⟩ }

/-- A sorted float property `[0,10] [10,10] [10,20]` whose middle segment is
the zero-length `holdSegment`. -/
def holdProperty : LOTAnimInfo (LOTKeyFrameValue ℚ) :=
  ⟨[{ mStartFrame := 0, mEndFrame := 10, mInterpolator := linearInterpolator, mValue := ⟨1, 2⟩ },
    holdSegment,
    { mStartFrame := 10, mEndFrame := 20, mInterpolator := linearInterpolator,
      mValue := ⟨3, 4⟩ }]⟩

/-- A sorted float property `[0,10] [10,10]` whose last segment is the
zero-length `holdSegment`. -/
def holdLastProperty : LOTAnimInfo (LOTKeyFrameValue ℚ) :=
  ⟨[{ mStartFrame := 0, mEndFrame := 10, mInterpolator := linearInterpolator, mValue := ⟨1, 2⟩ },
    holdSegment]⟩

/-- An `int` property (such as a fill opacity, `LOTAnimatable<int>`) with the
single segment `[0,10]` from 0 to 1 and the linear interpolator. -/
def intProperty : LOTAnimInfo (LOTKeyFrameValue Int) :=
  ⟨[{ mStartFrame := 0, mEndFrame := 10, mInterpolator := linearInterpolator,
      mValue := ⟨0, 1⟩ }]⟩

/-- The first segment `[0,10]` of `holdProperty`, from 1 to 2. -/
def rampSegment : LOTKeyFrame (LOTKeyFrameValue ℚ) :=
  { mStartFrame := 0, mEndFrame := 10, mInterpolator := linearInterpolator, mValue := ⟨1, 2⟩ }

/-- A spatial point segment from `(0,0)` to `(1,2)` whose in-tangent and
out-tangent are both the zero vector. -/
def spatialSegment : LOTKeyFrameValuePoint :=
  { mStartValue := ⟨0, 0⟩, mEndValue := ⟨1, 2⟩, mInTangent := ⟨0, 0⟩, mOutTangent := ⟨0, 0⟩,
    mPathKeyFrame := true }

/-- A one-point open descriptor. -/
def shortShape : LottieShapeData := { mPoints := [⟨0, 0⟩] }

/-- A two-point open descriptor. -/
def longShape : LottieShapeData := { mPoints := [⟨2, 4⟩, ⟨1, 1⟩] }

/-- A closed descriptor with the four points of one cubic segment. -/
def closedShape : LottieShapeData :=
  { mPoints := [⟨0, 0⟩, ⟨1, 0⟩, ⟨1, 1⟩, ⟨0, 1⟩], mClosed := true }

/-- An open descriptor with four points, `closedShape` moved and stretched. -/
def movedShape : LottieShapeData :=
  { mPoints := [⟨3, 3⟩, ⟨6, 3⟩, ⟨6, 9⟩, ⟨3, 9⟩] }

/-- An animated composition whose start and end frame are both 5, so that
`frameDuration()` is -1. -/
def singleFrameComposition : LOTCompositionData :=
  { mStatic := false, mStartFrame := 5, mEndFrame := 5, mFrameRate := 30 }

/-- An animated composition with the default frames (start 0, end 0). -/
def defaultFramesComposition : LOTCompositionData :=
  { mStatic := false, mFrameRate := 30 }

/-- An animated composition over frames 0 to 61 at 30 frames per second. -/
def twoSecondComposition : LOTCompositionData :=
  { mStatic := false, mStartFrame := 0, mEndFrame := 61, mFrameRate := 30 }

/-- A static composition with start frame 3 and end frame 61. -/
def staticComposition : LOTCompositionData :=
  { mStartFrame := 3, mEndFrame := 61, mFrameRate := 30 }

/-- A float property `[0,5] [8,10]` whose segments leave the frames 5, 6 and 7
uncovered. -/
def gapProperty : LOTAnimInfo (LOTKeyFrameValue ℚ) :=
  ⟨[{ mStartFrame := 0, mEndFrame := 5, mInterpolator := linearInterpolator, mValue := ⟨1, 2⟩ },
    { mStartFrame := 8, mEndFrame := 10, mInterpolator := linearInterpolator,
      mValue := ⟨3, 4⟩ }]⟩

/-- A trim node with constant start 25, end 75 and offset -450. -/
def constantTrim : LOTTrimData :=
  { mStart := { mValue := 25 }, mEnd := { mValue := 75 }, mOffset := { mValue := -450 } }

/-- A keyframed float property holding `holdProperty`. -/
def keyframedProperty : LOTAnimatable (LOTKeyFrameValue ℚ) ℚ :=
  { mValue := 0, mAnimInfo := some holdProperty }

/-- A constant float property with value 42. -/
def constantProperty : LOTAnimatable (LOTKeyFrameValue ℚ) ℚ :=
  { mValue := 42 }

/-- The last segment `[10,20]` of `holdProperty`, from 3 to 4. -/
def tailSegment : LOTKeyFrame (LOTKeyFrameValue ℚ) :=
  { mStartFrame := 10, mEndFrame := 20, mInterpolator := linearInterpolator, mValue := ⟨3, 4⟩ }

/-- A sorted float property `[0,10] [10,20]` of two adjacent segments. -/
def adjacentProperty : LOTAnimInfo (LOTKeyFrameValue ℚ) :=
  ⟨[rampSegment, tailSegment]⟩

/-- A gradient array of length 3. -/
def threeStopGradient : LottieGradient := { mGradient := [1, 2, 3] }

/-- A gradient array of length 2. -/
def twoStopGradient : LottieGradient := { mGradient := [3, 4] }

/-- Another gradient array of length 2. -/
def otherTwoStopGradient : LottieGradient := { mGradient := [5, 0] }

/-- A buffer of 2×1 RGBA pixels, `(255,128,0,128)` and `(10,20,30,255)`,
followed by one byte that is not part of the image. -/
def twoPixels : List Nat := [255, 128, 0, 128, 10, 20, 30, 255, 99]

/-! ## Specification predicates -/

/-- Frame `f` lies in the half-open range `[mStartFrame, mEndFrame)` of `k`:
the test of the scan loop of `LOTAnimInfo<T>::value`. -/
def LOTKeyFrame.Covers {V : Type} (k : LOTKeyFrame V) (f : Int) : Prop :=
  k.mStartFrame ≤ f ∧ f < k.mEndFrame

instance {V : Type} (k : LOTKeyFrame V) (f : Int) : Decidable (k.Covers f) := by
  unfold LOTKeyFrame.Covers; infer_instance

/-- Keyframe `s` is the first one of `a`, in list order, that covers `f`. -/
def LOTAnimInfo.FirstCover {V : Type} (a : LOTAnimInfo V) (s : LOTKeyFrame V) (f : Int) : Prop :=
  ∃ pre post, a.mKeyFrames = pre ++ s :: post ∧ (∀ k ∈ pre, ¬ k.Covers f) ∧ s.Covers f

/-- Frame `f` is strictly after the first segment's start frame and strictly
before the last segment's end frame. -/
def LOTAnimInfo.StrictlyInside {V : Type} (a : LOTAnimInfo V) (f : Int) : Prop :=
  ∃ front back, a.mKeyFrames.head? = some front ∧ a.mKeyFrames.getLast? = some back ∧
    front.mStartFrame < f ∧ f < back.mEndFrame

/-- The cubic operation that `toPath` issues for segment `j`: controls
`p[3j+1]`, `p[3j+2]` and endpoint `p[3j+3]`. -/
def cubicAt (points : List VPointF) (j : Nat) : VPathElement :=
  VPathElement.cubicTo (points.getD (3 * j + 1) {}) (points.getD (3 * j + 2) {})
    (points.getD (3 * j + 3) {})

/-- The position `pos` clamped to `[0,1]`. -/
def clamp01 (pos : ℚ) : ℚ := max 0 (min 1 pos)

/-- The segment list of `a` is gap-free: each segment's end frame is the next
segment's start frame. -/
def LOTAnimInfo.GapFree {V : Type} (a : LOTAnimInfo V) : Prop :=
  List.Chain' (fun x y => x.mEndFrame = y.mStartFrame) a.mKeyFrames

/-- The segment list of `a` is sorted and non-overlapping: every segment has
`start ≤ end`, and each segment ends at or before the start of the next. -/
def LOTAnimInfo.SortedNonOverlapping {V : Type} (a : LOTAnimInfo V) : Prop :=
  (∀ k ∈ a.mKeyFrames, k.mStartFrame ≤ k.mEndFrame) ∧
  List.Chain' (fun x y => x.mEndFrame ≤ y.mStartFrame) a.mKeyFrames

/-! ## Coordinates of the point and colour operators -/

theorem point_add_def (p q : VPointF) : p + q = ⟨p.mx + q.mx, p.my + q.my⟩ := rfl

theorem point_sub_def (p q : VPointF) : p - q = ⟨p.mx - q.mx, p.my - q.my⟩ := rfl

theorem point_mul_def (m : ℚ) (p : VPointF) : m * p = ⟨p.mx * m, p.my * m⟩ := rfl

theorem color_add_def (c1 c2 : LottieColor) :
    c1 + c2 = ⟨c1.r + c2.r, c1.g + c2.g, c1.b + c2.b⟩ := rfl

theorem color_sub_def (c1 c2 : LottieColor) :
    c1 - c2 = ⟨c1.r - c2.r, c1.g - c2.g, c1.b - c2.b⟩ := rfl

theorem color_mul_def (m : ℚ) (c : LottieColor) : m * c = ⟨c.r * m, c.g * m, c.b * m⟩ := rfl

/-- The template `lerp` on points, coordinate by coordinate. -/
theorem lerp_point (s e : VPointF) (t : ℚ) :
    lerp s e t = ⟨s.mx + t * (e.mx - s.mx), s.my + t * (e.my - s.my)⟩ := by
  simp only [lerp, point_add_def, point_sub_def, point_mul_def, VPointF.mk.injEq]
  constructor <;> ring

/-- The template `lerp` on colours, channel by channel. -/
theorem lerp_color (s e : LottieColor) (t : ℚ) :
    lerp s e t
      = ⟨s.r + t * (e.r - s.r), s.g + t * (e.g - s.g), s.b + t * (e.b - s.b)⟩ := by
  simp only [lerp, color_add_def, color_sub_def, color_mul_def,
    LottieColor.mk.injEq]
  refine ⟨?_, ?_, ?_⟩ <;> ring

/-! ## Lemmas on the scan loop -/

theorem scan_first_cover {V T : Type} [KeyFrameValue V T] (pre : List (LOTKeyFrame V))
    (s : LOTKeyFrame V) (post : List (LOTKeyFrame V)) (f : Int)
    (hpre : ∀ k ∈ pre, ¬ k.Covers f) (hs : s.Covers f) :
    LOTAnimInfo.scan (pre ++ s :: post) f = s.value f := by
  induction pre with
  | nil =>
    have h : f ≥ s.mStartFrame ∧ f < s.mEndFrame := hs
    simp [LOTAnimInfo.scan, h]
  | cons k rest ih =>
    have hk : ¬ (f ≥ k.mStartFrame ∧ f < k.mEndFrame) := hpre k (List.mem_cons_self _ _)
    have hrest : ∀ k ∈ rest, ¬ k.Covers f := fun k hm => hpre k (List.mem_cons_of_mem _ hm)
    simp only [List.cons_append, LOTAnimInfo.scan, if_neg hk]
    exact ih hrest

theorem scan_cases {V T : Type} [KeyFrameValue V T] (l : List (LOTKeyFrame V)) (f : Int) :
    (LOTAnimInfo.scan l f = some (KeyFrameValue.init V) ∧ ∀ k ∈ l, ¬ k.Covers f) ∨
    ∃ s, (∃ pre post, l = pre ++ s :: post ∧ (∀ k ∈ pre, ¬ k.Covers f) ∧ s.Covers f) ∧
      LOTAnimInfo.scan l f = s.value f := by
  induction l with
  | nil => left; simp [LOTAnimInfo.scan]
  | cons k rest ih =>
    by_cases hk : k.Covers f
    · right
      refine ⟨k, ⟨[], rest, rfl, by simp, hk⟩, ?_⟩
      have h : f ≥ k.mStartFrame ∧ f < k.mEndFrame := hk
      simp [LOTAnimInfo.scan, h]
    · have h : ¬ (f ≥ k.mStartFrame ∧ f < k.mEndFrame) := hk
      rcases ih with ⟨h1, h2⟩ | ⟨s, ⟨pre, post, hl, hpre, hs⟩, hv⟩
      · left
        refine ⟨by simp only [LOTAnimInfo.scan, if_neg h]; exact h1, ?_⟩
        intro k' hk'
        rcases List.mem_cons.mp hk' with rfl | hm
        · exact hk
        · exact h2 k' hm
      · right
        refine ⟨s, ⟨k :: pre, post, by simp [hl], ?_, hs⟩, ?_⟩
        · intro k' hk'
          rcases List.mem_cons.mp hk' with rfl | hm
          · exact hk
          · exact hpre k' hm
        · simp only [LOTAnimInfo.scan, if_neg h]; exact hv

theorem rawProgress_of_covers {V : Type} (k : LOTKeyFrame V) (f : Int) (h : k.Covers f) :
    k.rawProgress f
      = some (((f - k.mStartFrame : Int) : ℚ) / ((k.mEndFrame - k.mStartFrame : Int) : ℚ)) := by
  have hne : ((k.mEndFrame - k.mStartFrame : Int) : ℚ) ≠ 0 := by
    have : k.mEndFrame - k.mStartFrame ≠ 0 := by
      have h1 := h.1
      have h2 := h.2
      omega
    exact_mod_cast this
  rw [LOTKeyFrame.rawProgress, fdiv, if_neg hne]

/-! ## Clamping outside the covered range -/

/-- C1: for a keyframed property with a non-empty segment list and a frame at
or before the first segment's start frame, `value` returns exactly the first
segment's start value; the result is the same whatever the interpolators are
(including null pointers), so no interpolator is consulted. -/
theorem C1_value_at_or_before_first_start {V T : Type} [KeyFrameValue V T]
    (a : LOTAnimInfo V) (front : LOTKeyFrame V) (frameNo : Int)
    (hfront : a.mKeyFrames.head? = some front)
    (hframe : frameNo ≤ front.mStartFrame) :
    a.value frameNo = some (KeyFrameValue.mStartValue front.mValue) ∧
    ∀ g, (a.withInterpolators g).value frameNo
      = some (KeyFrameValue.mStartValue front.mValue) := by
  constructor
  · simp [LOTAnimInfo.value, hfront, hframe]
  · intro g
    have h : (a.withInterpolators g).mKeyFrames.head?
        = some { front with mInterpolator := g front } := by
      simp [LOTAnimInfo.withInterpolators, List.head?_map, hfront]
    simp [LOTAnimInfo.value, h, hframe]

theorem C1_witness :
    zeroLengthOnly.value 7 = some (1 : ℚ) ∧
    ∀ g, (zeroLengthOnly.withInterpolators g).value 7 = some (1 : ℚ) :=
  C1_value_at_or_before_first_start zeroLengthOnly
    { mStartFrame := 7, mEndFrame := 7, mInterpolator := linearInterpolator, mValue := ⟨1, 2⟩ }
    7 rfl (le_refl _)

/-- C2 as stated fails: the property `zeroLengthOnly` has the single segment
`[7,7]`; frame 7 is at or after the last segment's end frame, yet `value`
returns the start value 1 and not the end value 2, because the test against the
first segment's start frame comes first. -/
theorem C2_counterexample :
    zeroLengthOnly.mKeyFrames.getLast?
      = some { mStartFrame := 7, mEndFrame := 7, mInterpolator := linearInterpolator,
               mValue := ⟨1, 2⟩ } ∧
    (7 : Int) ≤ 7 ∧
    zeroLengthOnly.value 7 = some (1 : ℚ) ∧
    zeroLengthOnly.value 7 ≠ some (2 : ℚ) := by
  refine ⟨rfl, le_refl _, ?_, ?_⟩ <;>
    simp [zeroLengthOnly, LOTAnimInfo.value, KeyFrameValue.mStartValue]

/-- C2 (amended): for a keyframed property with a non-empty segment list and a
frame at or after the last segment's end frame that is strictly after the first
segment's start frame, `value` returns exactly the last segment's end value. -/
theorem C2_value_at_or_after_last_end {V T : Type} [KeyFrameValue V T]
    (a : LOTAnimInfo V) (front back : LOTKeyFrame V) (frameNo : Int)
    (hfront : a.mKeyFrames.head? = some front)
    (hback : a.mKeyFrames.getLast? = some back)
    (hfirst : front.mStartFrame < frameNo)
    (hframe : back.mEndFrame ≤ frameNo) :
    a.value frameNo = some (KeyFrameValue.mEndValue back.mValue) := by
  have h : ¬ (front.mStartFrame ≥ frameNo) := not_le.mpr hfirst
  simp [LOTAnimInfo.value, hfront, hback, h, hframe]

theorem C2_witness : holdLastProperty.value 10 = some (7 : ℚ) :=
  C2_value_at_or_after_last_end holdLastProperty
    { mStartFrame := 0, mEndFrame := 10, mInterpolator := linearInterpolator, mValue := ⟨1, 2⟩ }
    holdSegment 10 rfl rfl (by decide) (le_refl _)

/-! ## Zero-length segments -/

/-- C3 as stated fails: in the sorted property `holdProperty` the middle segment
`holdSegment` is the zero-length segment `[10,10]` with end value 7, yet
`value` at frame 10 is 3, the start of the following segment `[10,20]`: the
scan skips the zero-length segment and no raw progress of 1 is substituted. -/
theorem C3_counterexample :
    holdSegment ∈ holdProperty.mKeyFrames ∧
    holdSegment.mStartFrame = 10 ∧ holdSegment.mEndFrame = 10 ∧
    holdSegment.mValue.mEndValue = 7 ∧
    holdProperty.value 10 = some (3 : ℚ) ∧
    holdProperty.value 10 ≠ some (7 : ℚ) := by
  have h : holdProperty.value 10 = some (3 : ℚ) := by
    simp [holdProperty, holdSegment, LOTAnimInfo.value, LOTAnimInfo.scan, LOTKeyFrame.value,
      LOTKeyFrame.rawProgress, fdiv, linearInterpolator, KeyFrameValue.value,
      LOTKeyFrameValue.value, Interpolable.lerp, lerp]
  refine ⟨by simp [holdProperty], rfl, rfl, rfl, h, ?_⟩
  rw [h]
  norm_num

/-- C3 (amended): for a keyframed property containing a zero-length segment
`z = [k,k]` (whose own raw progress at `k` would be a division by zero), `value`
at `k` never evaluates `z` and divides by no zero: it is the
first segment's start value when `k` is at or before the first start; else the
last segment's end value when the last end is at or before `k` (hence the end
value of `z` when `z` is the last segment); else the value at `k` of the first
segment in list order with `start ≤ k < end`, whose divisor `end - start` is
positive, or `T()` when no segment covers `k`. -/
theorem C3_zero_length_segment {V T : Type} [KeyFrameValue V T]
    (a : LOTAnimInfo V) (z : LOTKeyFrame V) (k : Int)
    (hz : z ∈ a.mKeyFrames) (hstart : z.mStartFrame = k) (hend : z.mEndFrame = k) :
    z.rawProgress k = none ∧ ¬ z.Covers k ∧
    ∃ front back, a.mKeyFrames.head? = some front ∧ a.mKeyFrames.getLast? = some back ∧
      (k ≤ front.mStartFrame → a.value k = some (KeyFrameValue.mStartValue front.mValue)) ∧
      (front.mStartFrame < k → back.mEndFrame ≤ k →
        a.value k = some (KeyFrameValue.mEndValue back.mValue)) ∧
      (front.mStartFrame < k → a.mKeyFrames.getLast? = some z →
        a.value k = some (KeyFrameValue.mEndValue z.mValue)) ∧
      (front.mStartFrame < k → k < back.mEndFrame →
        (a.value k = some (KeyFrameValue.init V) ∧ ∀ s ∈ a.mKeyFrames, ¬ s.Covers k) ∨
        ∃ s, a.FirstCover s k ∧ 0 < s.mEndFrame - s.mStartFrame ∧
          s.rawProgress k
            = some (((k - s.mStartFrame : Int) : ℚ) / ((s.mEndFrame - s.mStartFrame : Int) : ℚ)) ∧
          a.value k = s.value k) := by
  have hzc : ¬ z.Covers k := by
    intro h
    have h2 := h.2
    omega
  refine ⟨by simp [LOTKeyFrame.rawProgress, fdiv, hstart, hend], hzc, ?_⟩
  obtain ⟨front, hfront⟩ : ∃ front, a.mKeyFrames.head? = some front := by
    cases hl : a.mKeyFrames with
    | nil => rw [hl] at hz; simp at hz
    | cons x xs => exact ⟨x, rfl⟩
  obtain ⟨back, hback⟩ : ∃ back, a.mKeyFrames.getLast? = some back := by
    cases hl : a.mKeyFrames.getLast? with
    | none => rw [List.getLast?_eq_none_iff] at hl; rw [hl] at hz; simp at hz
    | some x => exact ⟨x, rfl⟩
  refine ⟨front, back, hfront, hback, ?_, ?_, ?_, ?_⟩
  · intro h
    simp [LOTAnimInfo.value, hfront, h]
  · intro h1 h2
    have h : ¬ (front.mStartFrame ≥ k) := not_le.mpr h1
    simp [LOTAnimInfo.value, hfront, hback, h, h2]
  · intro h1 h2
    have h : ¬ (front.mStartFrame ≥ k) := not_le.mpr h1
    have hzb : back = z := by
      rw [hback] at h2
      exact Option.some.inj h2
    have h3 : z.mEndFrame ≤ k := le_of_eq hend
    simp [LOTAnimInfo.value, hfront, h2, h, h3]
  · intro h1 h2
    have h : ¬ (front.mStartFrame ≥ k) := not_le.mpr h1
    have h3 : ¬ (back.mEndFrame ≤ k) := not_le.mpr h2
    have hv : a.value k = LOTAnimInfo.scan a.mKeyFrames k := by
      simp [LOTAnimInfo.value, hfront, hback, h, h3]
    rcases scan_cases a.mKeyFrames k with ⟨h4, h5⟩ | ⟨s, hs, h4⟩
    · left
      exact ⟨hv.trans h4, h5⟩
    · right
      obtain ⟨pre, post, hl, hpre, hcov⟩ := hs
      refine ⟨s, ⟨pre, post, hl, hpre, hcov⟩, ?_, rawProgress_of_covers s k hcov, hv.trans h4⟩
      have c1 := hcov.1
      have c2 := hcov.2
      omega

theorem C3_witness :
    holdSegment.rawProgress 10 = none ∧ ¬ holdSegment.Covers 10 ∧
    ∃ front back, holdLastProperty.mKeyFrames.head? = some front ∧
      holdLastProperty.mKeyFrames.getLast? = some back ∧
      ((10 : Int) ≤ front.mStartFrame →
        holdLastProperty.value 10 = some (KeyFrameValue.mStartValue front.mValue)) ∧
      (front.mStartFrame < 10 → back.mEndFrame ≤ 10 →
        holdLastProperty.value 10 = some (KeyFrameValue.mEndValue back.mValue)) ∧
      (front.mStartFrame < 10 → holdLastProperty.mKeyFrames.getLast? = some holdSegment →
        holdLastProperty.value 10 = some (KeyFrameValue.mEndValue holdSegment.mValue)) ∧
      (front.mStartFrame < 10 → 10 < back.mEndFrame →
        (holdLastProperty.value 10 = some (KeyFrameValue.init (LOTKeyFrameValue ℚ)) ∧
          ∀ s ∈ holdLastProperty.mKeyFrames, ¬ s.Covers 10) ∨
        ∃ s, holdLastProperty.FirstCover s 10 ∧ 0 < s.mEndFrame - s.mStartFrame ∧
          s.rawProgress 10
            = some (((10 - s.mStartFrame : Int) : ℚ)
                / ((s.mEndFrame - s.mStartFrame : Int) : ℚ)) ∧
          holdLastProperty.value 10 = s.value 10) :=
  C3_zero_length_segment holdLastProperty holdSegment 10
    (by simp [holdLastProperty]) rfl rfl

/-! ## Interior frames -/

theorem value_of_first_cover {V T : Type} [KeyFrameValue V T]
    (a : LOTAnimInfo V) (s : LOTKeyFrame V) (g : ℚ → ℚ) (f : Int)
    (hin : a.StrictlyInside f) (hs : a.FirstCover s f) (hg : s.mInterpolator = some g) :
    a.value f = KeyFrameValue.value s.mValue
      (g (((f - s.mStartFrame : Int) : ℚ) / ((s.mEndFrame - s.mStartFrame : Int) : ℚ))) := by
  obtain ⟨front, back, hfront, hback, h1, h2⟩ := hin
  obtain ⟨pre, post, hl, hpre, hcov⟩ := hs
  have h : ¬ (front.mStartFrame ≥ f) := not_le.mpr h1
  have h3 : ¬ (back.mEndFrame ≤ f) := not_le.mpr h2
  have hv : a.value f = LOTAnimInfo.scan a.mKeyFrames f := by
    simp [LOTAnimInfo.value, hfront, hback, h, h3]
  rw [hv, hl, scan_first_cover pre s post f hpre hcov]
  simp [LOTKeyFrame.value, rawProgress_of_covers s f hcov, hg]

/-- C4 as stated fails for an `int` scalar property: `intProperty` has the
single segment `[0,10]` from 0 to 1 with the linear interpolator; frame 5 is
strictly inside and covered by that segment, `t = 5/10`, yet `value` is 0 and
not `0 + t * (1 - 0) = 1/2`: the float result is converted to `int`. -/
theorem C4_counterexample :
    intProperty.StrictlyInside 5 ∧
    intProperty.FirstCover
      { mStartFrame := 0, mEndFrame := 10, mInterpolator := linearInterpolator,
        mValue := ⟨0, 1⟩ } 5 ∧
    intProperty.value 5 = some (0 : Int) ∧
    ((0 : Int) : ℚ) ≠ ((0 : Int) : ℚ)
      + (((5 - 0 : Int) : ℚ) / ((10 - 0 : Int) : ℚ)) * (((1 : Int) : ℚ) - ((0 : Int) : ℚ)) := by
  refine ⟨⟨_, _, rfl, rfl, by decide, by decide⟩, ⟨[], [], rfl, by simp, by decide⟩, ?_, ?_⟩
  · have hfl : ⌊(2 : ℚ)⁻¹⌋ = 0 := by
      rw [Int.floor_eq_iff]
      norm_num
    simp [intProperty, LOTAnimInfo.value, LOTAnimInfo.scan, LOTKeyFrame.value,
      LOTKeyFrame.rawProgress, fdiv, linearInterpolator, KeyFrameValue.value,
      LOTKeyFrameValue.value, Interpolable.lerp, truncToInt]
    norm_num [hfl]
  · norm_num

/-- C4 (amended): for a keyframed property of float scalar, colour or
non-spatial point type and a frame `f` strictly after the first segment's start
and strictly before the last segment's end, if `s` is the first segment in list
order with `s.start ≤ f < s.end` and
`t = s.interpolator((f - s.start) / (s.end - s.start))`, then `value` is
`start + t * (end - start)`, per channel for a colour and per coordinate for a
point.  An `int` scalar, whose float result is converted to `int`, is not
covered. -/
theorem C4_interior_value :
    (∀ (a : LOTAnimInfo (LOTKeyFrameValue ℚ)) (s : LOTKeyFrame (LOTKeyFrameValue ℚ))
        (g : ℚ → ℚ) (f : Int) (t : ℚ),
      a.StrictlyInside f → a.FirstCover s f → s.mInterpolator = some g →
      t = g (((f - s.mStartFrame : Int) : ℚ) / ((s.mEndFrame - s.mStartFrame : Int) : ℚ)) →
      a.value f
        = some (s.mValue.mStartValue + t * (s.mValue.mEndValue - s.mValue.mStartValue))) ∧
    (∀ (a : LOTAnimInfo (LOTKeyFrameValue LottieColor))
        (s : LOTKeyFrame (LOTKeyFrameValue LottieColor)) (g : ℚ → ℚ) (f : Int) (t : ℚ),
      a.StrictlyInside f → a.FirstCover s f → s.mInterpolator = some g →
      t = g (((f - s.mStartFrame : Int) : ℚ) / ((s.mEndFrame - s.mStartFrame : Int) : ℚ)) →
      a.value f
        = some { r := s.mValue.mStartValue.r
                   + t * (s.mValue.mEndValue.r - s.mValue.mStartValue.r)
                 g := s.mValue.mStartValue.g
                   + t * (s.mValue.mEndValue.g - s.mValue.mStartValue.g)
                 b := s.mValue.mStartValue.b
                   + t * (s.mValue.mEndValue.b - s.mValue.mStartValue.b) }) ∧
    (∀ (a : LOTAnimInfo LOTKeyFrameValuePoint) (s : LOTKeyFrame LOTKeyFrameValuePoint)
        (g : ℚ → ℚ) (f : Int) (t : ℚ),
      a.StrictlyInside f → a.FirstCover s f → s.mInterpolator = some g →
      s.mValue.mPathKeyFrame = false →
      t = g (((f - s.mStartFrame : Int) : ℚ) / ((s.mEndFrame - s.mStartFrame : Int) : ℚ)) →
      a.value f
        = some { mx := s.mValue.mStartValue.mx
                   + t * (s.mValue.mEndValue.mx - s.mValue.mStartValue.mx)
                 my := s.mValue.mStartValue.my
                   + t * (s.mValue.mEndValue.my - s.mValue.mStartValue.my) }) := by
  refine ⟨?_, ?_, ?_⟩
  · intro a s g f t hin hs hg ht
    rw [ht, value_of_first_cover a s g f hin hs hg]
    simp [KeyFrameValue.value, LOTKeyFrameValue.value, Interpolable.lerp, lerp]
  · intro a s g f t hin hs hg ht
    rw [ht, value_of_first_cover a s g f hin hs hg]
    simp only [KeyFrameValue.value, LOTKeyFrameValue.value, Interpolable.lerp, lerp_color]
  · intro a s g f t hin hs hg hlinear ht
    rw [ht, value_of_first_cover a s g f hin hs hg]
    simp only [KeyFrameValue.value, LOTKeyFrameValuePoint.value, hlinear, lerp_point,
      Bool.false_eq_true, if_false]

theorem C4_witness :
    holdProperty.value 5
      = some (rampSegment.mValue.mStartValue
          + (1 / 2 : ℚ) * (rampSegment.mValue.mEndValue - rampSegment.mValue.mStartValue)) :=
  C4_interior_value.1 holdProperty rampSegment (fun p => p) 5 (1 / 2)
    ⟨_, _, rfl, rfl, by decide, by decide⟩
    ⟨[], _, rfl, by simp, by decide⟩ rfl (by norm_num [rampSegment])

/-! ## Spatial point segments -/

theorem spatial_zero_tangent_value (v : LOTKeyFrameValuePoint) (t : ℚ)
    (hspatial : v.mPathKeyFrame = true)
    (hin : v.mInTangent = ⟨0, 0⟩) (hout : v.mOutTangent = ⟨0, 0⟩) :
    v.value t = lerp v.mStartValue v.mEndValue (3 * t ^ 2 - 2 * t ^ 3) := by
  simp only [LOTKeyFrameValuePoint.value, hspatial, if_true, VBezier.pointAt,
    VBezier.fromPoints, hin, hout, lerp_point, point_add_def, point_mul_def,
    VPointF.mk.injEq]
  constructor <;> ring

/-- C5 as stated fails: the spatial segment `spatialSegment` from `(0,0)` to
`(1,2)` has zero tangents, and at `t = 1/4` its value, the cubic Bezier with
control points `(start, start, end, end)`, is `(5/32, 5/16)` whereas the linear
interpolation is `(1/4, 1/2)`. -/
theorem C5_counterexample :
    spatialSegment.mPathKeyFrame = true ∧
    spatialSegment.mInTangent = ⟨0, 0⟩ ∧ spatialSegment.mOutTangent = ⟨0, 0⟩ ∧
    (0 : ℚ) ≤ 1 / 4 ∧ (1 / 4 : ℚ) ≤ 1 ∧
    spatialSegment.value (1 / 4) = ⟨5 / 32, 5 / 16⟩ ∧
    lerp spatialSegment.mStartValue spatialSegment.mEndValue (1 / 4) = ⟨1 / 4, 1 / 2⟩ ∧
    spatialSegment.value (1 / 4)
      ≠ lerp spatialSegment.mStartValue spatialSegment.mEndValue (1 / 4) := by
  have h1 : spatialSegment.value (1 / 4) = ⟨5 / 32, 5 / 16⟩ := by
    rw [spatial_zero_tangent_value spatialSegment (1 / 4) rfl rfl rfl, lerp_point]
    simp only [spatialSegment, VPointF.mk.injEq]
    constructor <;> norm_num
  have h2 : lerp spatialSegment.mStartValue spatialSegment.mEndValue (1 / 4)
      = ⟨1 / 4, 1 / 2⟩ := by
    rw [lerp_point]
    simp only [spatialSegment, VPointF.mk.injEq]
    constructor <;> norm_num
  refine ⟨rfl, rfl, rfl, by norm_num, by norm_num, h1, h2, ?_⟩
  rw [h1, h2]
  simp only [ne_eq, VPointF.mk.injEq, not_and]
  norm_num

/-- C5 (amended): for a point segment marked spatial whose in-tangent and
out-tangent are both zero, the value at every `t` (the cubic Bezier with control
points `(start, start, end, end)` sampled at `t`) is
`start + (3 t^2 - 2 t^3) * (end - start)`; it equals the linear interpolation
`start + t * (end - start)` exactly when `start = end` or `t` is 0, 1/2 or 1. -/
theorem C5_spatial_zero_tangents (v : LOTKeyFrameValuePoint) (t : ℚ)
    (hspatial : v.mPathKeyFrame = true)
    (hin : v.mInTangent = ⟨0, 0⟩) (hout : v.mOutTangent = ⟨0, 0⟩) :
    v.value t = lerp v.mStartValue v.mEndValue (3 * t ^ 2 - 2 * t ^ 3) ∧
    (v.value t = lerp v.mStartValue v.mEndValue t ↔
      v.mStartValue = v.mEndValue ∨ t = 0 ∨ t = 1 / 2 ∨ t = 1) := by
  have hval := spatial_zero_tangent_value v t hspatial hin hout
  refine ⟨hval, ?_⟩
  rw [hval, lerp_point, lerp_point]
  simp only [VPointF.mk.injEq]
  have hfac : 3 * t ^ 2 - 2 * t ^ 3 - t = -(t * (2 * t - 1) * (t - 1)) := by ring
  constructor
  · rintro ⟨hx, hy⟩
    by_cases hu : 3 * t ^ 2 - 2 * t ^ 3 - t = 0
    · right
      rw [hfac, neg_eq_zero, mul_eq_zero, mul_eq_zero] at hu
      rcases hu with (h0 | h12) | h1
      · exact Or.inl h0
      · right; left; linarith
      · right; right; linarith
    · left
      have hx0 : (3 * t ^ 2 - 2 * t ^ 3 - t) * (v.mEndValue.mx - v.mStartValue.mx) = 0 := by
        linear_combination hx
      have hy0 : (3 * t ^ 2 - 2 * t ^ 3 - t) * (v.mEndValue.my - v.mStartValue.my) = 0 := by
        linear_combination hy
      have hx1 := (mul_eq_zero.mp hx0).resolve_left hu
      have hy1 := (mul_eq_zero.mp hy0).resolve_left hu
      cases hs : v.mStartValue with
      | mk sx sy =>
        cases he : v.mEndValue with
        | mk ex ey =>
          rw [hs, he] at hx1 hy1
          simp only [VPointF.mk.injEq]
          constructor <;> linarith
  · rintro (h | h | h | h)
    · rw [h]; simp
    · subst h; norm_num
    · subst h; norm_num
    · subst h; norm_num

theorem C5_witness :
    spatialSegment.value (1 / 2)
      = lerp spatialSegment.mStartValue spatialSegment.mEndValue
          (3 * (1 / 2 : ℚ) ^ 2 - 2 * (1 / 2 : ℚ) ^ 3) ∧
    (spatialSegment.value (1 / 2)
        = lerp spatialSegment.mStartValue spatialSegment.mEndValue (1 / 2) ↔
      spatialSegment.mStartValue = spatialSegment.mEndValue ∨ (1 / 2 : ℚ) = 0
        ∨ (1 / 2 : ℚ) = 1 / 2 ∨ (1 / 2 : ℚ) = 1) :=
  C5_spatial_zero_tangents spatialSegment (1 / 2) rfl rfl rfl

/-! ## Shape descriptor interpolation -/

theorem lerpShape_fold (start end_ : LottieShapeData) (t : ℚ) :
    ∀ n, n ≤ start.mPoints.length → n ≤ end_.mPoints.length → ∀ init : LottieShapeData,
      (List.range n).foldlM (lerpShapeStep start end_ t) init
        = some { init with
            mPoints := init.mPoints
              ++ List.zipWith (fun (s e : VPointF) => s + t * (e - s))
                  (start.mPoints.take n) (end_.mPoints.take n) } := by
  intro n
  induction n with
  | zero => intro _ _ init; simp
  | succ n ih =>
    intro hs he init
    have hs' : n < start.mPoints.length := hs
    have he' : n < end_.mPoints.length := he
    rw [List.range_succ, List.foldlM_append, ih (Nat.le_of_lt hs') (Nat.le_of_lt he') init]
    have hlen : (start.mPoints.take n).length = (end_.mPoints.take n).length := by
      rw [List.length_take, List.length_take, Nat.min_eq_left (Nat.le_of_lt hs'),
        Nat.min_eq_left (Nat.le_of_lt he')]
    simp only [List.take_succ, List.getElem?_eq_getElem hs', List.getElem?_eq_getElem he',
      Option.toList_some, List.zipWith_append _ _ _ _ _ hlen]
    simp [lerpShapeStep, List.getElem?_eq_getElem hs', List.getElem?_eq_getElem he']

/-- The value of `lerp(LottieShapeData)` when `end` has at least as many points
as `start`: the pointwise interpolation over the indices of `start`, in a
default-constructed (open) descriptor. -/
theorem lerpShape_eq (start end_ : LottieShapeData) (t : ℚ)
    (h : start.mPoints.length ≤ end_.mPoints.length) :
    lerpShape start end_ t
      = some { mPoints := List.zipWith (fun s e => s + t * (e - s))
                 start.mPoints (end_.mPoints.take start.mPoints.length)
               mClosed := false } := by
  have := lerpShape_fold start end_ t start.mPoints.length (le_refl _) h {}
  simp only [lerpShape, ne_eq, not_true_eq_false, if_false, this, List.take_length]
  simp

theorem zipWith_eq_left {α β : Type} (f : α → β → α) (hf : ∀ a b, f a b = a) :
    ∀ (l : List α) (l' : List β), l.length ≤ l'.length → List.zipWith f l l' = l
  | [], _, _ => by simp
  | a :: l, [], h => by simp at h
  | a :: l, b :: l', h => by
    have h' : l.length ≤ l'.length := by simpa using h
    simp [hf, zipWith_eq_left f hf l l' h']

theorem zipWith_eq_right {α β : Type} (f : α → β → β) (hf : ∀ a b, f a b = b) :
    ∀ (l : List α) (l' : List β), l'.length ≤ l.length → List.zipWith f l l' = l'
  | _, [], _ => by simp
  | [], b :: l', h => by simp at h
  | a :: l, b :: l', h => by
    have h' : l'.length ≤ l.length := by simpa using h
    simp [hf, zipWith_eq_right f hf l l' h']

theorem lerp_point_zero (s e : VPointF) : s + (0 : ℚ) * (e - s) = s := by
  cases s; cases e
  simp [point_add_def, point_sub_def, point_mul_def]

theorem lerp_point_one (s e : VPointF) : s + (1 : ℚ) * (e - s) = e := by
  cases s; cases e
  simp [point_add_def, point_sub_def, point_mul_def]

theorem lerpShape_zero (start end_ : LottieShapeData)
    (h : start.mPoints.length = end_.mPoints.length) :
    lerpShape start end_ 0 = some { mPoints := start.mPoints, mClosed := false } := by
  rw [lerpShape_eq start end_ 0 (le_of_eq h)]
  rw [zipWith_eq_left _ (fun s e => lerp_point_zero s e)]
  simp [h]

theorem lerpShape_one (start end_ : LottieShapeData)
    (h : start.mPoints.length = end_.mPoints.length) :
    lerpShape start end_ 1 = some { mPoints := end_.mPoints, mClosed := false } := by
  rw [lerpShape_eq start end_ 1 (le_of_eq h)]
  rw [h, List.take_length, zipWith_eq_right _ (fun s e => lerp_point_one s e)]
  simp [h]

theorem lerpShapeStep_closed (start end_ : LottieShapeData) (t : ℚ)
    (result r : LottieShapeData) (i : Nat)
    (h : lerpShapeStep start end_ t result i = some r) : r.mClosed = result.mClosed := by
  unfold lerpShapeStep at h
  cases hs : start.mPoints[i]? with
  | none => simp [hs] at h
  | some s =>
    cases he : end_.mPoints[i]? with
    | none => simp [hs, he] at h
    | some e =>
      simp [hs, he] at h
      rw [← h]

theorem lerpShape_fold_closed (start end_ : LottieShapeData) (t : ℚ) :
    ∀ (l : List Nat) (init r : LottieShapeData),
      l.foldlM (lerpShapeStep start end_ t) init = some r → r.mClosed = init.mClosed
  | [], init, r, h => by
    simp at h
    rw [h]
  | i :: l, init, r, h => by
    rw [List.foldlM_cons] at h
    cases hstep : lerpShapeStep start end_ t init i with
    | none => simp [hstep] at h
    | some mid =>
      simp [hstep] at h
      rw [lerpShape_fold_closed start end_ t l mid r h,
        lerpShapeStep_closed start end_ t init mid i hstep]

/-- C6: the guard of `lerp(LottieShapeData)` compares the point count of `start`
with itself and never fires.  With the one-point `shortShape` as start and the
two-point `longShape` as end the result is the one-point descriptor `[(1,2)]`,
not an empty one; with the roles exchanged the loop reads index 1 of the
one-point buffer, outside it. -/
theorem C6_unequal_counts_evaluation :
    shortShape.mPoints.length ≠ longShape.mPoints.length ∧
    lerpShape shortShape longShape (1 / 2) = some ⟨[⟨1, 2⟩], false⟩ ∧
    lerpShape shortShape longShape (1 / 2) ≠ some {} ∧
    lerpShape longShape shortShape (1 / 2) = none ∧
    (∀ t r, lerpShapeStep longShape shortShape t r 1 = none) ∧
    shortShape.mPoints[1]? = none := by
  have h1 : lerpShape shortShape longShape (1 / 2) = some ⟨[⟨1, 2⟩], false⟩ := by
    simp [lerpShape, lerpShapeStep, List.range_succ, point_add_def, point_sub_def,
      point_mul_def, shortShape, longShape]
    norm_num
  refine ⟨by decide, h1, ?_, ?_, ?_, rfl⟩
  · rw [h1]; simp
  · simp [lerpShape, lerpShapeStep, List.range_succ, shortShape, longShape]
  · intro t r; simp [lerpShapeStep, shortShape, longShape]

/-- C7: `lerp(LottieShapeData)` never sets the closed flag of its result.  For
the closed descriptor `closedShape` as both start and end, the results at
`t = 0` and `t = 1` have the points of `closedShape` but are open, so neither is
the start or the end descriptor.  In general, for equal point counts the points
do round-trip and the flag of the result is false. -/
theorem C7_round_trip_drops_closed_flag :
    lerpShape closedShape closedShape 0 = some { closedShape with mClosed := false } ∧
    lerpShape closedShape closedShape 0 ≠ some closedShape ∧
    lerpShape closedShape closedShape 1 = some { closedShape with mClosed := false } ∧
    lerpShape closedShape closedShape 1 ≠ some closedShape ∧
    (∀ start end_ : LottieShapeData, start.mPoints.length = end_.mPoints.length →
      lerpShape start end_ 0 = some { mPoints := start.mPoints, mClosed := false } ∧
      lerpShape start end_ 1 = some { mPoints := end_.mPoints, mClosed := false }) := by
  have h0 := lerpShape_zero closedShape closedShape rfl
  have h1 := lerpShape_one closedShape closedShape rfl
  refine ⟨h0, ?_, h1, ?_, fun start end_ h => ⟨lerpShape_zero start end_ h,
    lerpShape_one start end_ h⟩⟩
  · rw [h0]; simp [closedShape]
  · rw [h1]; simp [closedShape]

/-- C8: the result of `lerp(LottieShapeData)` is built in a default-constructed
descriptor whose closed flag is never assigned: for the closed `closedShape` as
start and end (equal point counts) the result at `t = 1/2` is open, and every
result of the function has closed flag false whatever the start's flag is. -/
theorem C8_closed_flag_not_copied :
    closedShape.mClosed = true ∧
    closedShape.mPoints.length = closedShape.mPoints.length ∧
    (∃ r, lerpShape closedShape closedShape (1 / 2) = some r ∧ r.mClosed = false) ∧
    (∀ (start end_ : LottieShapeData) (t : ℚ) (r : LottieShapeData),
      lerpShape start end_ t = some r → r.mClosed = false) := by
  refine ⟨rfl, rfl, ⟨_, lerpShape_eq closedShape closedShape (1 / 2) (le_refl _), rfl⟩, ?_⟩
  intro start end_ t r h
  simp only [lerpShape, ne_eq, not_true_eq_false, if_false] at h
  exact lerpShape_fold_closed start end_ t _ _ r h

/-- C9: for two descriptors of equal point count `n` and every `t`,
`lerp(start, end, t)` returns a descriptor with exactly `n` points whose `i`-th
point is `start[i] + t * (end[i] - start[i])`, coordinate by coordinate, for
every `i < n`, in the original order. -/
theorem C9_pointwise_interpolation (start end_ : LottieShapeData) (t : ℚ)
    (h : start.mPoints.length = end_.mPoints.length) :
    ∃ r, lerpShape start end_ t = some r ∧
      r.mPoints.length = start.mPoints.length ∧
      ∀ (i : Nat) (s e : VPointF), start.mPoints[i]? = some s → end_.mPoints[i]? = some e →
        r.mPoints[i]?
          = some { mx := s.mx + t * (e.mx - s.mx), my := s.my + t * (e.my - s.my) } := by
  refine ⟨_, lerpShape_eq start end_ t (le_of_eq h), ?_, ?_⟩
  · simp [h]
  · intro i s e hs he
    simp only [h, List.take_length, List.getElem?_zipWith, hs, he]
    exact congrArg some (lerp_point s e t)

theorem C9_witness :
    ∃ r, lerpShape closedShape movedShape (1 / 3) = some r ∧
      r.mPoints.length = closedShape.mPoints.length ∧
      ∀ (i : Nat) (s e : VPointF), closedShape.mPoints[i]? = some s →
        movedShape.mPoints[i]? = some e →
        r.mPoints[i]?
          = some { mx := s.mx + (1 / 3 : ℚ) * (e.mx - s.mx),
                   my := s.my + (1 / 3 : ℚ) * (e.my - s.my) } :=
  C9_pointwise_interpolation closedShape movedShape (1 / 3) rfl

/-! ## Conversion of a descriptor to a path -/

theorem getElem?_eq_some_getD (points : List VPointF) (i : Nat) (h : i < points.length) :
    points[i]? = some (points.getD i {}) := by
  rw [List.getElem?_eq_getElem h, List.getD_eq_getElem _ _ h]

theorem toPathLoop_spec (points : List VPointF) (k : Nat) (hlen : points.length = 3 * k + 1) :
    ∀ (m j fuel : Nat) (path : VPath), j + m = k → m < fuel →
      toPathLoop points (3 * k + 1) fuel (3 * j + 1) path
        = some { path with
            mElements := path.mElements ++ (List.range' j m).map (cubicAt points) } := by
  intro m
  induction m with
  | zero =>
    intro j fuel path hj hfuel
    obtain ⟨fuel, rfl⟩ : ∃ n, fuel = n + 1 := ⟨fuel - 1, by omega⟩
    have hlt : ¬ (3 * j + 1 < 3 * k + 1) := by omega
    simp [toPathLoop, hlt]
  | succ m ih =>
    intro j fuel path hj hfuel
    obtain ⟨fuel, rfl⟩ : ∃ n, fuel = n + 1 := ⟨fuel - 1, by omega⟩
    have hlt : 3 * j + 1 < 3 * k + 1 := by omega
    have h1 := getElem?_eq_some_getD points (3 * j + 1) (by omega)
    have h2 := getElem?_eq_some_getD points (3 * j + 1 + 1) (by omega)
    have h3 := getElem?_eq_some_getD points (3 * j + 1 + 2) (by omega)
    have hnext : 3 * j + 1 + 3 = 3 * (j + 1) + 1 := by ring
    simp only [toPathLoop, hlt, if_true, h1, h2, h3, Option.bind_eq_bind, Option.some_bind, hnext]
    rw [ih (j + 1) fuel _ (by omega) (by omega)]
    simp [VPath.cubicTo, List.range'_succ, cubicAt]

/-- C10: for an empty descriptor `toPath` leaves the path empty; for a
descriptor with `n = 3k+1` points `p[0..n-1]` it resets the target path
(whatever it held) and then issues exactly `moveTo(p[0])`, then for
`j = 0..k-1` in order `cubicTo(p[3j+1], p[3j+2], p[3j+3])`, then one close
operation if and only if the closed flag is set. -/
theorem C10_toPath_operations (d : LottieShapeData) (path : VPath) :
    (d.mPoints = [] → ∃ out, d.toPath path = some out ∧ out.mElements = []) ∧
    (∀ k, d.mPoints.length = 3 * k + 1 →
      ∃ out, d.toPath path = some out ∧
        out.mElements
          = VPathElement.moveTo (d.mPoints.getD 0 {})
            :: ((List.range k).map (fun j =>
                  VPathElement.cubicTo (d.mPoints.getD (3 * j + 1) {})
                    (d.mPoints.getD (3 * j + 2) {}) (d.mPoints.getD (3 * j + 3) {}))
                ++ if d.mClosed = true then [VPathElement.close] else [])) := by
  constructor
  · intro h
    exact ⟨path.reset, by simp [LottieShapeData.toPath, h], rfl⟩
  · intro k hlen
    have hne : d.mPoints.isEmpty = false := by
      cases hp : d.mPoints with
      | nil => rw [hp] at hlen; simp at hlen
      | cons x xs => rfl
    have h0 := getElem?_eq_some_getD d.mPoints 0 (by omega)
    have hloop := toPathLoop_spec d.mPoints k hlen k 0 (3 * k + 1)
      (((path.reset).reserve (3 * k + 1 + 1) ((3 * k + 1) / 3 + 2)).moveTo (d.mPoints.getD 0 {}))
      (by omega) (by omega)
    simp only [Nat.mul_zero, Nat.zero_add] at hloop
    simp only [LottieShapeData.toPath, hne, hlen, h0, hloop, Bool.false_eq_true, if_false,
      Option.bind_eq_bind, Option.some_bind]
    cases hc : d.mClosed
    · refine ⟨_, rfl, ?_⟩
      simp [VPath.moveTo, VPath.reserve, VPath.reset, List.range_eq_range', cubicAt]
    · refine ⟨_, rfl, ?_⟩
      simp [VPath.close, VPath.moveTo, VPath.reserve, VPath.reset, List.range_eq_range', cubicAt]

theorem C10_witness :
    (∃ out, ({} : LottieShapeData).toPath { mElements := [VPathElement.close] } = some out ∧
      out.mElements = []) ∧
    (∃ out, closedShape.toPath { mElements := [VPathElement.close] } = some out ∧
      out.mElements
        = VPathElement.moveTo (closedShape.mPoints.getD 0 {})
          :: ((List.range 1).map (fun j =>
                VPathElement.cubicTo (closedShape.mPoints.getD (3 * j + 1) {})
                  (closedShape.mPoints.getD (3 * j + 2) {})
                  (closedShape.mPoints.getD (3 * j + 3) {}))
              ++ if closedShape.mClosed = true then [VPathElement.close] else [])) :=
  ⟨(C10_toPath_operations {} { mElements := [VPathElement.close] }).1 rfl,
   (C10_toPath_operations closedShape { mElements := [VPathElement.close] }).2 1 rfl⟩

/-! ## Timeline queries of the composition -/

theorem truncToInt_of_nonneg (q : ℚ) (h : 0 ≤ q) : truncToInt q = ⌊q⌋ := by
  simp [truncToInt, h]

theorem toSizeT_of_nonneg (q : ℚ) (h : 0 ≤ q) : toSizeT q = some ⌊q⌋.toNat := by
  have h0 : ¬ (⌊q⌋ < 0) := not_lt.mpr (Int.floor_nonneg.mpr h)
  simp [toSizeT, truncToInt_of_nonneg q h, h0]

theorem toSizeT_intCast (n : Int) (h : 0 ≤ n) : toSizeT (n : ℚ) = some n.toNat := by
  have hq : (0 : ℚ) ≤ (n : ℚ) := by exact_mod_cast h
  rw [toSizeT_of_nonneg _ hq, Int.floor_intCast]

theorem frameAtPos_eq (c : LOTCompositionData) (pos : ℚ) :
    c.frameAtPos pos
      = toSizeT (if c.isStatic = true then (c.startFrame : ℚ)
          else (c.startFrame : ℚ) + clamp01 pos * (c.frameDuration : ℚ)) := by
  have hclamp : (if (if pos < 0 then 0 else pos) > 1 then 1 else (if pos < 0 then 0 else pos))
      = clamp01 pos := by
    unfold clamp01
    by_cases h0 : pos < 0
    · have h1 : ¬ ((0 : ℚ) > 1) := by norm_num
      rw [if_pos h0, if_neg h1, min_eq_right (by linarith), max_eq_left (le_of_lt h0)]
    · rw [if_neg h0]
      by_cases h1 : pos > 1
      · rw [if_pos h1, min_eq_left (le_of_lt h1), max_eq_right (by norm_num)]
      · rw [if_neg h1, min_eq_right (not_lt.mp h1), max_eq_right (not_lt.mp h0)]
  simp only [LOTCompositionData.frameAtPos, hclamp]

theorem clamp01_nonneg (pos : ℚ) : 0 ≤ clamp01 pos := le_max_left _ _

theorem clamp01_le_one (pos : ℚ) : clamp01 pos ≤ 1 :=
  max_le (by norm_num) (min_le_left _ _)

theorem clamp01_mono {p q : ℚ} (h : p ≤ q) : clamp01 p ≤ clamp01 q :=
  max_le_max (le_refl _) (min_le_min (le_refl _) h)

/-- C11 as stated fails: the animated composition `singleFrameComposition` has
start frame 5 and end frame 5, so `frameDuration()` is -1 and `frameAtPos`
decreases: `frameAtPos(0)` is 5 and `frameAtPos(1)` is 4. -/
theorem C11_counterexample :
    (0 : ℚ) ≤ 1 ∧
    singleFrameComposition.frameAtPos 0 = some 5 ∧
    singleFrameComposition.frameAtPos 1 = some 4 ∧
    ¬ (5 ≤ 4) := by
  refine ⟨by norm_num, ?_, ?_, by decide⟩
  · rw [frameAtPos_eq]
    have h : (if singleFrameComposition.isStatic = true then
        (singleFrameComposition.startFrame : ℚ)
        else (singleFrameComposition.startFrame : ℚ)
          + clamp01 0 * (singleFrameComposition.frameDuration : ℚ)) = ((5 : Int) : ℚ) := by
      norm_num [singleFrameComposition, LOTData.isStatic, LOTCompositionData.startFrame,
        LOTCompositionData.frameDuration, clamp01]
    rw [h, toSizeT_intCast 5 (by decide)]
    rfl
  · rw [frameAtPos_eq]
    have h : (if singleFrameComposition.isStatic = true then
        (singleFrameComposition.startFrame : ℚ)
        else (singleFrameComposition.startFrame : ℚ)
          + clamp01 1 * (singleFrameComposition.frameDuration : ℚ)) = ((4 : Int) : ℚ) := by
      norm_num [singleFrameComposition, LOTData.isStatic, LOTCompositionData.startFrame,
        LOTCompositionData.frameDuration, clamp01]
    rw [h, toSizeT_intCast 4 (by decide)]
    rfl

/-- C11 (amended): for a composition whose start frame is non-negative and that
is static or has a non-negative `frameDuration()` (end frame above start frame),
and for all positions `pos1 ≤ pos2` (values outside `[0,1]` included),
`frameAtPos` is defined at both and `frameAtPos(pos1) ≤ frameAtPos(pos2)`. -/
theorem C11_frameAtPos_monotone (c : LOTCompositionData) (pos1 pos2 : ℚ)
    (hstart : 0 ≤ c.mStartFrame)
    (hdur : c.isStatic = true ∨ 0 ≤ c.frameDuration)
    (hpos : pos1 ≤ pos2) :
    ∃ a b, c.frameAtPos pos1 = some a ∧ c.frameAtPos pos2 = some b ∧ a ≤ b := by
  have hs : (0 : ℚ) ≤ (c.startFrame : ℚ) := by
    have : 0 ≤ c.startFrame := hstart
    exact_mod_cast this
  by_cases hst : c.isStatic = true
  · have hv : ∀ pos, c.frameAtPos pos = some c.startFrame.toNat := by
      intro pos
      rw [frameAtPos_eq, if_pos hst]
      exact toSizeT_intCast c.startFrame hstart
    exact ⟨_, _, hv pos1, hv pos2, le_refl _⟩
  · have hd : 0 ≤ c.frameDuration := hdur.resolve_left hst
    have hdq : (0 : ℚ) ≤ (c.frameDuration : ℚ) := by exact_mod_cast hd
    have h1 : (0 : ℚ) ≤ (c.startFrame : ℚ) + clamp01 pos1 * (c.frameDuration : ℚ) :=
      add_nonneg hs (mul_nonneg (clamp01_nonneg _) hdq)
    have h2 : (0 : ℚ) ≤ (c.startFrame : ℚ) + clamp01 pos2 * (c.frameDuration : ℚ) :=
      add_nonneg hs (mul_nonneg (clamp01_nonneg _) hdq)
    have e1 : c.frameAtPos pos1
        = some ⌊(c.startFrame : ℚ) + clamp01 pos1 * (c.frameDuration : ℚ)⌋.toNat := by
      rw [frameAtPos_eq, if_neg hst, toSizeT_of_nonneg _ h1]
    have e2 : c.frameAtPos pos2
        = some ⌊(c.startFrame : ℚ) + clamp01 pos2 * (c.frameDuration : ℚ)⌋.toNat := by
      rw [frameAtPos_eq, if_neg hst, toSizeT_of_nonneg _ h2]
    refine ⟨_, _, e1, e2, ?_⟩
    · apply Int.toNat_le_toNat
      apply Int.floor_mono
      have := mul_le_mul_of_nonneg_right (clamp01_mono hpos) hdq
      linarith

theorem C11_witness :
    ∃ a b, twoSecondComposition.frameAtPos (-3) = some a ∧
      twoSecondComposition.frameAtPos (1 / 7) = some b ∧ a ≤ b :=
  C11_frameAtPos_monotone twoSecondComposition (-3) (1 / 7) (by decide)
    (Or.inr (by decide)) (by norm_num)

theorem truncToInt_intCast (n : Int) : truncToInt (n : ℚ) = n := by
  simp [truncToInt]

theorem toSizeT_intCast_neg (n : Int) (h : n < 0) : toSizeT (n : ℚ) = none := by
  simp [toSizeT, truncToInt_intCast, h]

/-- C12 as stated fails: the animated composition `defaultFramesComposition`
has start frame 0 and end frame 0, so `startFrame + frameDuration()` is -1, a
value the unsigned result of `frameAtPos` cannot hold: the conversion of -1.0
to `size_t` at `pos = 1` is undefined. -/
theorem C12_counterexample :
    defaultFramesComposition.isStatic = false ∧
    defaultFramesComposition.startFrame + defaultFramesComposition.frameDuration = -1 ∧
    defaultFramesComposition.frameAtPos 1 = none := by
  refine ⟨rfl, by decide, ?_⟩
  rw [frameAtPos_eq]
  have h : (if defaultFramesComposition.isStatic = true then
      (defaultFramesComposition.startFrame : ℚ)
      else (defaultFramesComposition.startFrame : ℚ)
        + clamp01 1 * (defaultFramesComposition.frameDuration : ℚ)) = ((-1 : Int) : ℚ) := by
    norm_num [defaultFramesComposition, LOTData.isStatic, LOTCompositionData.startFrame,
      LOTCompositionData.frameDuration, clamp01]
  rw [h, toSizeT_intCast_neg (-1) (by decide)]

/-- C12 (amended): for an animated composition whose start frame is
non-negative and whose end frame is at least 1 (so that both values fit the
unsigned result), `frameAtPos(0)` equals `startFrame` and `frameAtPos(1)` equals
`startFrame + frameDuration()`, where `frameDuration()` is
`endFrame - startFrame - 1`. -/
theorem C12_frameAtPos_endpoints (c : LOTCompositionData)
    (hanimated : c.isStatic = false)
    (hstart : 0 ≤ c.mStartFrame) (hend : 1 ≤ c.mEndFrame) :
    c.frameDuration = c.mEndFrame - c.mStartFrame - 1 ∧
    ∃ a b : Nat, c.frameAtPos 0 = some a ∧ (a : Int) = c.startFrame ∧
      c.frameAtPos 1 = some b ∧ (b : Int) = c.startFrame + c.frameDuration := by
  have hst : ¬ (c.isStatic = true) := by simp [hanimated]
  have hsum : 0 ≤ c.startFrame + c.frameDuration := by
    simp only [LOTCompositionData.startFrame, LOTCompositionData.frameDuration]
    omega
  have h0 : clamp01 0 = 0 := by simp [clamp01]
  have h1 : clamp01 1 = 1 := by simp [clamp01]
  refine ⟨rfl, c.startFrame.toNat, (c.startFrame + c.frameDuration).toNat, ?_,
    Int.toNat_of_nonneg hstart, ?_, Int.toNat_of_nonneg hsum⟩
  · rw [frameAtPos_eq, if_neg hst, h0, zero_mul, add_zero]
    exact toSizeT_intCast c.startFrame hstart
  · rw [frameAtPos_eq, if_neg hst, h1, one_mul, ← Int.cast_add]
    exact toSizeT_intCast _ hsum

theorem C12_witness :
    twoSecondComposition.frameDuration
      = twoSecondComposition.mEndFrame - twoSecondComposition.mStartFrame - 1 ∧
    ∃ a b : Nat, twoSecondComposition.frameAtPos 0 = some a ∧
      (a : Int) = twoSecondComposition.startFrame ∧
      twoSecondComposition.frameAtPos 1 = some b ∧
      (b : Int) = twoSecondComposition.startFrame + twoSecondComposition.frameDuration :=
  C12_frameAtPos_endpoints twoSecondComposition rfl (by decide) (by decide)

theorem scan_no_cover {V T : Type} [KeyFrameValue V T] (l : List (LOTKeyFrame V)) (f : Int)
    (h : ∀ k ∈ l, ¬ k.Covers f) : LOTAnimInfo.scan l f = some (KeyFrameValue.init V) := by
  rcases scan_cases l f with ⟨h1, _⟩ | ⟨s, ⟨pre, post, hl, _, hs⟩, _⟩
  · exact h1
  · exact absurd hs (h s (by rw [hl]; simp))

theorem value_eq_scan {V T : Type} [KeyFrameValue V T] (a : LOTAnimInfo V) (f : Int)
    (hin : a.StrictlyInside f) : a.value f = LOTAnimInfo.scan a.mKeyFrames f := by
  obtain ⟨front, back, hfront, hback, h1, h2⟩ := hin
  have h : ¬ (front.mStartFrame ≥ f) := not_le.mpr h1
  have h3 : ¬ (back.mEndFrame ≤ f) := not_le.mpr h2
  simp [LOTAnimInfo.value, hfront, hback, h, h3]

/-- C14: for a keyframed property and a frame strictly inside the overall range
(first start < f < last end) that no segment covers (none has
`start ≤ f < end`), `value` returns the value-initialised `T()` of the
property's type and does not fail; `T()` is 0 for a float or an `int` scalar and
the empty open descriptor for a shape. -/
theorem C14_gap_returns_default {V T : Type} [KeyFrameValue V T]
    (a : LOTAnimInfo V) (f : Int)
    (hin : a.StrictlyInside f) (hgap : ∀ k ∈ a.mKeyFrames, ¬ k.Covers f) :
    a.value f = some (KeyFrameValue.init V) ∧
    KeyFrameValue.init (LOTKeyFrameValue ℚ) = (0 : ℚ) ∧
    KeyFrameValue.init (LOTKeyFrameValue Int) = (0 : Int) ∧
    KeyFrameValue.init (LOTKeyFrameValue LottieShapeData)
      = ({ mPoints := [], mClosed := false } : LottieShapeData) := by
  refine ⟨?_, rfl, rfl, rfl⟩
  rw [value_eq_scan a f hin, scan_no_cover a.mKeyFrames f hgap]

theorem C14_witness :
    gapProperty.value 6 = some (KeyFrameValue.init (LOTKeyFrameValue ℚ)) ∧
    KeyFrameValue.init (LOTKeyFrameValue ℚ) = (0 : ℚ) ∧
    KeyFrameValue.init (LOTKeyFrameValue Int) = (0 : Int) ∧
    KeyFrameValue.init (LOTKeyFrameValue LottieShapeData)
      = ({ mPoints := [], mClosed := false } : LottieShapeData) :=
  C14_gap_returns_default gapProperty 6 ⟨_, _, rfl, rfl, by decide, by decide⟩
    (by
      intro k hk
      simp only [gapProperty, List.mem_cons, List.mem_singleton, List.not_mem_nil,
        or_false] at hk
      rcases hk with rfl | rfl <;> simp [LOTKeyFrame.Covers])

/-! ## The path left by `toPath` -/

/-- The path that `toPath` leaves for a descriptor with `3k+1` points. -/
theorem toPath_of_length (d : LottieShapeData) (path : VPath) (k : Nat)
    (hlen : d.mPoints.length = 3 * k + 1) :
    d.toPath path
      = some { mElements := VPathElement.moveTo (d.mPoints.getD 0 {})
                 :: ((List.range' 0 k).map (cubicAt d.mPoints)
                     ++ if d.mClosed = true then [VPathElement.close] else [])
               mPointCapacity := max path.mPointCapacity (3 * k + 1 + 1)
               mElementCapacity := max path.mElementCapacity ((3 * k + 1) / 3 + 2) } := by
  have hne : d.mPoints.isEmpty = false := by
    cases hp : d.mPoints with
    | nil => rw [hp] at hlen; simp at hlen
    | cons x xs => rfl
  have h0 := getElem?_eq_some_getD d.mPoints 0 (by omega)
  have hloop := toPathLoop_spec d.mPoints k hlen k 0 (3 * k + 1)
    (((path.reset).reserve (3 * k + 1 + 1) ((3 * k + 1) / 3 + 2)).moveTo (d.mPoints.getD 0 {}))
    (by omega) (by omega)
  simp only [Nat.mul_zero, Nat.zero_add] at hloop
  simp only [LottieShapeData.toPath, hne, hlen, h0, hloop, Bool.false_eq_true, if_false,
    Option.bind_eq_bind, Option.some_bind]
  cases hc : d.mClosed <;>
    simp [VPath.close, VPath.moveTo, VPath.reserve, VPath.reset]

/-! ## Duration of the composition -/

/-- C16: `frameDuration()` is `endFrame - startFrame - 1`; `duration()` returns
`startFrame` for a static composition and the quotient
`frameDuration() / frameRate()` for an animated one (the float division, which
has a rational value whenever the frame rate is not zero). -/
theorem C16_duration (c : LOTCompositionData) :
    c.frameDuration = c.mEndFrame - c.mStartFrame - 1 ∧
    (c.isStatic = true → c.duration = some (c.startFrame : ℚ)) ∧
    (c.isStatic = false → c.duration = fdiv (c.frameDuration : ℚ) c.frameRate) ∧
    (c.isStatic = false → c.frameRate ≠ 0 →
      c.duration = some ((c.frameDuration : ℚ) / c.frameRate)) := by
  refine ⟨rfl, ?_, ?_, ?_⟩
  · intro h
    simp [LOTCompositionData.duration, h]
  · intro h
    simp [LOTCompositionData.duration, h]
  · intro h hr
    simp [LOTCompositionData.duration, h, fdiv, hr]

theorem C16_witness :
    twoSecondComposition.duration = some (2 : ℚ) ∧
    staticComposition.duration = some (3 : ℚ) := by
  constructor
  · rw [(C16_duration twoSecondComposition).2.2.2 rfl (by norm_num [twoSecondComposition,
      LOTCompositionData.frameRate])]
    norm_num [twoSecondComposition, LOTCompositionData.frameDuration,
      LOTCompositionData.frameRate]
  · rw [(C16_duration staticComposition).2.1 rfl]
    norm_num [staticComposition, LOTCompositionData.startFrame]

/-! ## Trim parameters -/

theorem fmod_of_nonneg (x : ℚ) (h : 0 ≤ x) :
    0 ≤ fmod x 360 ∧ fmod x 360 < 360 := by
  have hq : 0 ≤ x / 360 := div_nonneg h (by norm_num)
  have h1 := Int.floor_le (x / 360)
  have h2 := Int.lt_floor_add_one (x / 360)
  have hx : x = x / 360 * 360 := by ring
  simp only [fmod, truncToInt, if_pos hq]
  constructor <;> nlinarith

theorem fmod_of_nonpos (x : ℚ) (h : x ≤ 0) :
    -360 < fmod x 360 ∧ fmod x 360 ≤ 0 := by
  have hx : x = x / 360 * 360 := by ring
  by_cases hq : 0 ≤ x / 360
  · have hx0 : x = 0 := by
      have : 0 ≤ x := by nlinarith
      linarith
    subst hx0
    simp [fmod, truncToInt]
  · have h1 := Int.le_ceil (x / 360)
    have h2 := Int.ceil_lt_add_one (x / 360)
    simp only [fmod, truncToInt, if_neg hq]
    constructor <;> nlinarith

/-- C17: for a trim node and a frame, `start` and `end` are the evaluated
start/end property divided by 100, and `offset` is `fmod` of the evaluated
offset by 360 (raw offset minus 360 times the quotient truncated toward zero,
so the remainder has the sign of the raw offset) divided by 360; the offset
lies in `[0,1)` for a non-negative raw offset and in `(-1,0]` for a
non-positive one. -/
theorem C17_trim_parameters (t : LOTTrimData) (f : Int) :
    t.start f = (t.mStart.value f).map (fun v => v / 100) ∧
    t.end_ f = (t.mEnd.value f).map (fun v => v / 100) ∧
    t.offset f = (t.mOffset.value f).map (fun v => fmod v 360 / 360) ∧
    ∀ v, t.mOffset.value f = some v →
      ∃ r, t.offset f = some r ∧
        r * 360 = v - (truncToInt (v / 360) : ℚ) * 360 ∧
        (0 ≤ v → 0 ≤ r * 360 ∧ 0 ≤ r ∧ r < 1) ∧
        (v ≤ 0 → r * 360 ≤ 0 ∧ -1 < r ∧ r ≤ 0) := by
  refine ⟨?_, ?_, ?_, ?_⟩
  · cases h : t.mStart.value f <;> simp [LOTTrimData.start, h]
  · cases h : t.mEnd.value f <;> simp [LOTTrimData.end_, h]
  · cases h : t.mOffset.value f <;> simp [LOTTrimData.offset, h]
  · intro v hv
    refine ⟨fmod v 360 / 360, by simp [LOTTrimData.offset, hv], ?_, ?_, ?_⟩
    · simp only [fmod]
      ring
    · intro h0
      obtain ⟨h1, h2⟩ := fmod_of_nonneg v h0
      refine ⟨by linarith, by positivity, ?_⟩
      rw [div_lt_one (by norm_num)]
      exact h2
    · intro h0
      obtain ⟨h1, h2⟩ := fmod_of_nonpos v h0
      refine ⟨by linarith, ?_, ?_⟩
      · rw [lt_div_iff₀ (by norm_num)]
        linarith
      · rw [div_le_iff₀ (by norm_num)]
        linarith

theorem C17_witness :
    constantTrim.start 3 = some (1 / 4 : ℚ) ∧
    constantTrim.end_ 3 = some (3 / 4 : ℚ) ∧
    ∃ r, constantTrim.offset 3 = some r ∧
      r * 360 = (-450 : ℚ) - (truncToInt ((-450 : ℚ) / 360) : ℚ) * 360 ∧
      ((0 : ℚ) ≤ -450 → 0 ≤ r * 360 ∧ 0 ≤ r ∧ r < 1) ∧
      ((-450 : ℚ) ≤ 0 → r * 360 ≤ 0 ∧ -1 < r ∧ r ≤ 0) := by
  have h := C17_trim_parameters constantTrim 3
  refine ⟨?_, ?_, h.2.2.2 (-450) rfl⟩
  · rw [h.1]
    norm_num [constantTrim, LOTAnimatable.value, LOTAnimatable.isStatic]
  · rw [h.2.1]
    norm_num [constantTrim, LOTAnimatable.value, LOTAnimatable.isStatic]

/-! ## Constant and keyframed properties -/

/-- C18: a property that carries no keyframe info reports `isStatic()` true and
`value(f)` returns the stored constant for every frame; a property that carries
keyframe info reports `isStatic()` false and `value(f)` is the value of its
segment list at `f`. -/
theorem C18_animatable_value {V T : Type} [KeyFrameValue V T] (p : LOTAnimatable V T) :
    (p.mAnimInfo = none → p.isStatic = true ∧ ∀ f, p.value f = some p.mValue) ∧
    (∀ a, p.mAnimInfo = some a → p.isStatic = false ∧ ∀ f, p.value f = a.value f) := by
  constructor
  · intro h
    simp [LOTAnimatable.isStatic, LOTAnimatable.value, h]
  · intro a h
    simp [LOTAnimatable.isStatic, LOTAnimatable.value, h]

theorem C18_witness :
    (constantProperty.isStatic = true ∧ ∀ f, constantProperty.value f = some (42 : ℚ)) ∧
    (keyframedProperty.isStatic = false ∧
      ∀ f, keyframedProperty.value f = holdProperty.value f) :=
  ⟨(C18_animatable_value constantProperty).1 rfl,
   (C18_animatable_value keyframedProperty).2 holdProperty rfl⟩

/-! ## Winding direction -/

/-- C19: `direction()` returns counter-clockwise if and only if the stored
direction code is 3, and clockwise for every other code; this is the function
that the Rect, Ellipse, Polystar and ShapePath nodes inherit, and each of them
is constructed with code 1, hence clockwise. -/
theorem C19_direction (p : LOTPath) :
    (p.direction = VPathDirection.CCW ↔ p.mDirection = 3) ∧
    (p.direction = VPathDirection.CW ↔ p.mDirection ≠ 3) ∧
    (∀ r : LOTRectData, r.direction = r.toLOTPath.direction) ∧
    (∀ e : LOTEllipseData, e.direction = e.toLOTPath.direction) ∧
    (∀ s : LOTPolystarData, s.direction = s.toLOTPath.direction) ∧
    (∀ s : LOTShapeData, s.direction = s.toLOTPath.direction) ∧
    ({} : LOTRectData).direction = VPathDirection.CW ∧
    ({} : LOTEllipseData).direction = VPathDirection.CW ∧
    ({} : LOTPolystarData).direction = VPathDirection.CW ∧
    ({} : LOTShapeData).direction = VPathDirection.CW := by
  refine ⟨?_, ?_, fun _ => rfl, fun _ => rfl, fun _ => rfl, fun _ => rfl, rfl, rfl, rfl, rfl⟩
  · by_cases h : p.mDirection = 3 <;> simp [LOTPath.direction, h]
  · by_cases h : p.mDirection = 3 <;> simp [LOTPath.direction, h]

/-! ## Gap-free segment lists -/

theorem exists_cover_of_chain {V : Type} (f : Int) :
    ∀ (l : List (LOTKeyFrame V)) (k : LOTKeyFrame V),
      List.Chain' (fun x y => x.mEndFrame = y.mStartFrame) (k :: l) →
      k.mStartFrame ≤ f →
      (∀ back, (k :: l).getLast? = some back → f < back.mEndFrame) →
      ∃ s ∈ k :: l, s.Covers f
  | [], k, _, hk, hlast => ⟨k, by simp, hk, hlast k rfl⟩
  | k2 :: rest, k, hchain, hk, hlast => by
    rw [List.chain'_cons] at hchain
    by_cases hf : f < k.mEndFrame
    · exact ⟨k, by simp, hk, hf⟩
    · have hk2 : k2.mStartFrame ≤ f := by
        have := hchain.1
        omega
      have hlast2 : ∀ back, (k2 :: rest).getLast? = some back → f < back.mEndFrame := by
        intro back hb
        apply hlast back
        rw [List.getLast?_cons_cons]
        exact hb
      obtain ⟨s, hs, hcov⟩ := exists_cover_of_chain f rest k2 hchain.2 hk2 hlast2
      exact ⟨s, List.mem_cons_of_mem _ hs, hcov⟩

/-- C20: in a non-empty gap-free segment list (each segment's end frame is the
next segment's start frame; `start ≤ end` is not needed), every frame strictly
between the first start and the last end is covered by a segment with
`start ≤ f < end`; `value` at such a frame is the value of the first covering
segment, so the fallback `return T()` is not reached. -/
theorem C20_gap_free_covered {V T : Type} [KeyFrameValue V T]
    (a : LOTAnimInfo V) (f : Int)
    (hgap : a.GapFree) (hin : a.StrictlyInside f) :
    (∃ s ∈ a.mKeyFrames, s.Covers f) ∧
    ∃ s, a.FirstCover s f ∧ a.value f = s.value f := by
  have hv := value_eq_scan a f hin
  obtain ⟨front, back, hfront, hback, h1, h2⟩ := hin
  have hex : ∃ s ∈ a.mKeyFrames, s.Covers f := by
    cases hl : a.mKeyFrames with
    | nil => rw [hl] at hfront; simp at hfront
    | cons k l =>
      have hk : k = front := by
        rw [hl] at hfront
        simpa using hfront
      subst hk
      apply exists_cover_of_chain f l k
      · have := hgap
        unfold LOTAnimInfo.GapFree at this
        rwa [hl] at this
      · exact le_of_lt h1
      · intro b hb
        rw [← hl, hback] at hb
        cases hb
        exact h2
  refine ⟨hex, ?_⟩
  rcases scan_cases a.mKeyFrames f with ⟨_, hno⟩ | ⟨s, hs, hval⟩
  · obtain ⟨s, hs, hcov⟩ := hex
    exact absurd hcov (hno s hs)
  · exact ⟨s, hs, hv.trans hval⟩

theorem C20_witness :
    (∃ s ∈ holdProperty.mKeyFrames, s.Covers 10) ∧
    ∃ s, holdProperty.FirstCover s 10 ∧ holdProperty.value 10 = s.value 10 :=
  C20_gap_free_covered holdProperty 10
    (by simp [LOTAnimInfo.GapFree, holdProperty, holdSegment])
    ⟨_, _, rfl, rfl, by decide, by decide⟩

/-! ## The delegated segment -/

theorem scan_eq_scanSelect {V T : Type} [KeyFrameValue V T] (l : List (LOTKeyFrame V))
    (f : Int) :
    LOTAnimInfo.scan l f
      = match LOTAnimInfo.scanSelect l f with
        | some k => k.value f
        | none => some (KeyFrameValue.init V) := by
  induction l with
  | nil => rfl
  | cons k rest ih =>
    by_cases h : f ≥ k.mStartFrame ∧ f < k.mEndFrame
    · simp only [LOTAnimInfo.scan, LOTAnimInfo.scanSelect, if_pos h]
    · simp only [LOTAnimInfo.scan, LOTAnimInfo.scanSelect, if_neg h]
      exact ih

theorem scanSelect_some {V : Type} (l : List (LOTKeyFrame V)) (f : Int) (s : LOTKeyFrame V)
    (h : LOTAnimInfo.scanSelect l f = some s) :
    ∃ pre post, l = pre ++ s :: post ∧ (∀ k ∈ pre, ¬ k.Covers f) ∧ s.Covers f := by
  induction l with
  | nil => simp [LOTAnimInfo.scanSelect] at h
  | cons k rest ih =>
    by_cases hk : f ≥ k.mStartFrame ∧ f < k.mEndFrame
    · simp only [LOTAnimInfo.scanSelect, if_pos hk, Option.some.injEq] at h
      subst h
      exact ⟨[], rest, rfl, by simp, hk⟩
    · simp only [LOTAnimInfo.scanSelect, if_neg hk] at h
      obtain ⟨pre, post, hl, hpre, hs⟩ := ih h
      refine ⟨k :: pre, post, by simp [hl], ?_, hs⟩
      intro k' hk'
      rcases List.mem_cons.mp hk' with rfl | hm
      · exact hk
      · exact hpre k' hm

theorem scanSelect_first_cover {V : Type} (pre : List (LOTKeyFrame V)) (s : LOTKeyFrame V)
    (post : List (LOTKeyFrame V)) (f : Int)
    (hpre : ∀ k ∈ pre, ¬ k.Covers f) (hs : s.Covers f) :
    LOTAnimInfo.scanSelect (pre ++ s :: post) f = some s := by
  induction pre with
  | nil =>
    have h : f ≥ s.mStartFrame ∧ f < s.mEndFrame := hs
    simp [LOTAnimInfo.scanSelect, h]
  | cons k rest ih =>
    have hk : ¬ (f ≥ k.mStartFrame ∧ f < k.mEndFrame) := hpre k (List.mem_cons_self _ _)
    have hrest : ∀ k ∈ rest, ¬ k.Covers f := fun k hm => hpre k (List.mem_cons_of_mem _ hm)
    simp only [List.cons_append, LOTAnimInfo.scanSelect, if_neg hk]
    exact ih hrest

theorem rawProgress_range {V : Type} (s : LOTKeyFrame V) (f : Int) (h : s.Covers f) :
    ∃ p, s.rawProgress f = some p ∧
      p = ((f - s.mStartFrame : Int) : ℚ) / ((s.mEndFrame - s.mStartFrame : Int) : ℚ) ∧
      0 ≤ p ∧ p < 1 := by
  have h1 := h.1
  have h2 := h.2
  have hpos : (0 : ℚ) < ((s.mEndFrame - s.mStartFrame : Int) : ℚ) := by
    have : 0 < s.mEndFrame - s.mStartFrame := by omega
    exact_mod_cast this
  have hnum : (0 : ℚ) ≤ ((f - s.mStartFrame : Int) : ℚ) := by
    have : 0 ≤ f - s.mStartFrame := by omega
    exact_mod_cast this
  have hlt : ((f - s.mStartFrame : Int) : ℚ) < ((s.mEndFrame - s.mStartFrame : Int) : ℚ) := by
    have : f - s.mStartFrame < s.mEndFrame - s.mStartFrame := by omega
    exact_mod_cast this
  refine ⟨_, rawProgress_of_covers s f h, rfl, div_nonneg hnum (le_of_lt hpos), ?_⟩
  rw [div_lt_one hpos]
  exact hlt

/-- C21: whenever `LOTAnimInfo::value` delegates frame `f` to a segment's
`LOTKeyFrame::value`, its result is that segment's value, and the segment is one
of the list with `startFrame ≤ f < endFrame`: the divisor `endFrame - startFrame`
is strictly positive and the raw progress handed to the interpolator is
`(f - startFrame) / (endFrame - startFrame)`, in `[0,1)`.  This holds for every
segment list.  When no segment is delegated to, the result is undefined (empty
list), the first start value, the last end value or `T()`. -/
theorem C21_delegated_segment_covers {V T : Type} [KeyFrameValue V T]
    (a : LOTAnimInfo V) (f : Int) :
    (∀ s, a.delegate f = some s →
      a.value f = s.value f ∧ s ∈ a.mKeyFrames ∧
      s.mStartFrame ≤ f ∧ f < s.mEndFrame ∧ 0 < s.mEndFrame - s.mStartFrame ∧
      ∃ p, s.rawProgress f = some p ∧
        p = ((f - s.mStartFrame : Int) : ℚ) / ((s.mEndFrame - s.mStartFrame : Int) : ℚ) ∧
        0 ≤ p ∧ p < 1) ∧
    (a.delegate f = none →
      a.value f = none ∨
      (∃ front, a.mKeyFrames.head? = some front ∧
        a.value f = some (KeyFrameValue.mStartValue front.mValue)) ∨
      (∃ back, a.mKeyFrames.getLast? = some back ∧
        a.value f = some (KeyFrameValue.mEndValue back.mValue)) ∨
      a.value f = some (KeyFrameValue.init V)) := by
  cases hfront : a.mKeyFrames.head? with
  | none =>
    refine ⟨?_, fun _ => Or.inl (by simp [LOTAnimInfo.value, hfront])⟩
    intro s hs
    simp [LOTAnimInfo.delegate, hfront] at hs
  | some front =>
    by_cases h1 : front.mStartFrame ≥ f
    · refine ⟨?_, fun _ => Or.inr (Or.inl ⟨front, rfl, by simp [LOTAnimInfo.value, hfront, h1]⟩)⟩
      intro s hs
      simp [LOTAnimInfo.delegate, hfront, h1] at hs
    · cases hback : a.mKeyFrames.getLast? with
      | none =>
        refine ⟨?_, fun _ => Or.inl (by simp [LOTAnimInfo.value, hfront, hback, h1])⟩
        intro s hs
        simp [LOTAnimInfo.delegate, hfront, hback, h1] at hs
      | some back =>
        by_cases h2 : back.mEndFrame ≤ f
        · refine ⟨?_, fun _ => Or.inr (Or.inr (Or.inl
            ⟨back, rfl, by simp [LOTAnimInfo.value, hfront, hback, h1, h2]⟩))⟩
          intro s hs
          simp [LOTAnimInfo.delegate, hfront, hback, h1, h2] at hs
        · have hv : a.value f = LOTAnimInfo.scan a.mKeyFrames f := by
            simp [LOTAnimInfo.value, hfront, hback, h1, h2]
          have hd : a.delegate f = LOTAnimInfo.scanSelect a.mKeyFrames f := by
            simp [LOTAnimInfo.delegate, hfront, hback, h1, h2]
          have hlink := scan_eq_scanSelect (T := T) a.mKeyFrames f
          constructor
          · intro s hs
            rw [hd] at hs
            rw [hs] at hlink
            obtain ⟨pre, post, hl, _, hcov⟩ := scanSelect_some a.mKeyFrames f s hs
            have c1 := hcov.1
            have c2 := hcov.2
            refine ⟨hv.trans hlink, by rw [hl]; simp, c1, c2, by omega,
              rawProgress_range s f hcov⟩
          · intro hn
            rw [hd] at hn
            rw [hn] at hlink
            exact Or.inr (Or.inr (Or.inr (hv.trans hlink)))

theorem C21_witness :
    holdProperty.value 10 = tailSegment.value 10 ∧ tailSegment ∈ holdProperty.mKeyFrames ∧
    tailSegment.mStartFrame ≤ 10 ∧ 10 < tailSegment.mEndFrame ∧
    0 < tailSegment.mEndFrame - tailSegment.mStartFrame ∧
    ∃ p, tailSegment.rawProgress 10 = some p ∧
      p = (((10 : Int) - tailSegment.mStartFrame : Int) : ℚ)
          / ((tailSegment.mEndFrame - tailSegment.mStartFrame : Int) : ℚ) ∧
      0 ≤ p ∧ p < 1 :=
  (C21_delegated_segment_covers holdProperty 10).1 tailSegment rfl

/-! ## Shared boundary frames -/

theorem chain_end_le_start {V : Type} (a : LOTKeyFrame V) (rest : List (LOTKeyFrame V)) :
    ∀ pre : List (LOTKeyFrame V),
      (∀ k ∈ pre ++ a :: rest, k.mStartFrame ≤ k.mEndFrame) →
      List.Chain' (fun x y => x.mEndFrame ≤ y.mStartFrame) (pre ++ a :: rest) →
      ∀ k ∈ pre, k.mEndFrame ≤ a.mStartFrame
  | [], _, _ => by simp
  | [x], _, hchain => by
    intro k hk
    simp only [List.mem_singleton] at hk
    subst hk
    simp only [List.singleton_append] at hchain
    exact (List.chain'_cons.mp hchain).1
  | x :: y :: pre, hle, hchain => by
    intro k hk
    have hchain' : List.Chain' (fun x y => x.mEndFrame ≤ y.mStartFrame)
        (x :: y :: (pre ++ a :: rest)) := by simpa using hchain
    have hxy := (List.chain'_cons.mp hchain').1
    have htail := (List.chain'_cons.mp hchain').2
    have ih := chain_end_le_start a rest (y :: pre)
      (fun k hk => hle k (by simp at hk ⊢; tauto)) (by simpa using htail)
    rcases List.mem_cons.mp hk with rfl | hm
    · have hy := ih y (List.mem_cons_self _ _)
      have hyle := hle y (by simp)
      omega
    · exact ih k hm

/-- C23: in a sorted, non-overlapping property, for consecutive segments `x`,
`b` sharing the boundary frame `k` (`x.endFrame = k = b.startFrame < b.endFrame`)
with `k` strictly inside the overall range, `value` at `k` delegates to `b`,
whose raw progress at `k` is 0: the result is the typed value of `b` at
`b.interpolator(0)`, not the end value of `x`. -/
theorem C23_boundary_frame {V T : Type} [KeyFrameValue V T]
    (a : LOTAnimInfo V) (pre post : List (LOTKeyFrame V)) (x b : LOTKeyFrame V)
    (g : ℚ → ℚ) (k : Int)
    (hsorted : a.SortedNonOverlapping)
    (hlist : a.mKeyFrames = pre ++ x :: b :: post)
    (hx : x.mEndFrame = k) (hb : b.mStartFrame = k) (hlt : k < b.mEndFrame)
    (hin : a.StrictlyInside k) (hg : b.mInterpolator = some g) :
    a.delegate k = some b ∧ b.rawProgress k = some 0 ∧
    a.value k = KeyFrameValue.value b.mValue (g 0) ∧ a.value k = b.value k := by
  obtain ⟨hle, hchain⟩ := hsorted
  rw [hlist] at hle hchain
  have hpre := chain_end_le_start x (b :: post) pre hle hchain
  have hxle := hle x (by simp)
  have hlist' : a.mKeyFrames = (pre ++ [x]) ++ b :: post := by simp [hlist]
  have hno : ∀ s ∈ pre ++ [x], ¬ s.Covers k := by
    intro s hs hcov
    have c2 := hcov.2
    rcases List.mem_append.mp hs with hm | hm
    · have := hpre s hm
      omega
    · simp only [List.mem_singleton] at hm
      subst hm
      omega
  have hcov : b.Covers k := ⟨le_of_eq hb, hlt⟩
  have hfirst : a.FirstCover b k := ⟨pre ++ [x], post, hlist', hno, hcov⟩
  have hraw : b.rawProgress k = some 0 := by
    rw [rawProgress_of_covers b k hcov, hb]
    simp
  have hval := value_of_first_cover a b g k hin hfirst hg
  have hzero : ((k - b.mStartFrame : Int) : ℚ) / ((b.mEndFrame - b.mStartFrame : Int) : ℚ)
      = 0 := by
    rw [hb]; simp
  rw [hzero] at hval
  have hv := value_eq_scan (T := T) a k hin
  obtain ⟨front, back, hfront, hback, h1, h2⟩ := hin
  have hd : a.delegate k = some b := by
    have e1 : ¬ (front.mStartFrame ≥ k) := not_le.mpr h1
    have e2 : ¬ (back.mEndFrame ≤ k) := not_le.mpr h2
    have : a.delegate k = LOTAnimInfo.scanSelect a.mKeyFrames k := by
      simp [LOTAnimInfo.delegate, hfront, hback, e1, e2]
    rw [this, hlist', scanSelect_first_cover _ b post k hno hcov]
  refine ⟨hd, hraw, hval, ?_⟩
  rw [hv, hlist', scan_first_cover _ b post k hno hcov]

theorem C23_witness :
    adjacentProperty.delegate 10 = some tailSegment ∧
    tailSegment.rawProgress 10 = some 0 ∧
    adjacentProperty.value 10 = KeyFrameValue.value tailSegment.mValue ((fun p => p) 0) ∧
    adjacentProperty.value 10 = tailSegment.value 10 :=
  C23_boundary_frame adjacentProperty [] [] rampSegment tailSegment (fun p => p) 10
    ⟨by simp [adjacentProperty, rampSegment, tailSegment],
     by simp [adjacentProperty, rampSegment, tailSegment]⟩
    rfl rfl rfl (by decide) ⟨_, _, rfl, rfl, by decide, by decide⟩ rfl

/-! ## Indices read by `toPath` -/

theorem mem_toPathLoopReads (size : Nat) :
    ∀ (fuel i idx : Nat), size ≤ i + 3 * fuel →
      (idx ∈ toPathLoopReads size fuel i ↔
        ∃ j, i + 3 * j < size ∧
          (idx = i + 3 * j ∨ idx = i + 3 * j + 1 ∨ idx = i + 3 * j + 2)) := by
  intro fuel
  induction fuel with
  | zero =>
    intro i idx h
    simp only [toPathLoopReads, List.not_mem_nil, false_iff]
    rintro ⟨j, hj, _⟩
    omega
  | succ fuel ih =>
    intro i idx h
    by_cases hi : i < size
    · simp only [toPathLoopReads, if_pos hi, List.mem_cons, ih (i + 3) idx (by omega)]
      constructor
      · rintro (h0 | h1 | h2 | ⟨j, hj, hidx⟩)
        · exact ⟨0, by omega, by omega⟩
        · exact ⟨0, by omega, by omega⟩
        · exact ⟨0, by omega, by omega⟩
        · exact ⟨j + 1, by omega, by omega⟩
      · rintro ⟨j, hj, hidx⟩
        cases j with
        | zero => omega
        | succ j => exact Or.inr (Or.inr (Or.inr ⟨j, by omega, by omega⟩))
    · simp only [toPathLoopReads, if_neg hi, List.not_mem_nil, false_iff]
      rintro ⟨j, hj, _⟩
      omega

theorem mem_toPathReads (d : LottieShapeData) (idx : Nat) :
    idx ∈ d.toPathReads ↔
      d.mPoints ≠ [] ∧
      (idx = 0 ∨ ∃ j, 1 + 3 * j < d.mPoints.length ∧
        (idx = 1 + 3 * j ∨ idx = 1 + 3 * j + 1 ∨ idx = 1 + 3 * j + 2)) := by
  cases hp : d.mPoints with
  | nil => simp [LottieShapeData.toPathReads, hp]
  | cons x xs =>
    have hmem := mem_toPathLoopReads (x :: xs).length (x :: xs).length 1 idx (by omega)
    simp only [LottieShapeData.toPathReads, hp, List.isEmpty_cons, Bool.false_eq_true,
      if_false, List.mem_cons, hmem, ne_eq, not_false_eq_true, true_and, reduceCtorEq]

/-- C22: `toPath` reads index 0 and, for `i = 1, 4, 7, …` below the point count
`n`, the indices `i`, `i+1`, `i+2`.  When `n ≡ 1 (mod 3)` every index read is
strictly below `n` and the conversion succeeds; when `n > 1` and
`n ≢ 1 (mod 3)` the loop reads an index at or above `n`, and the two-point
descriptor `longShape` is such a descriptor, on which the conversion has no
defined result. -/
theorem C22_toPath_reads (d : LottieShapeData) :
    (∀ idx, idx ∈ d.toPathReads ↔
      d.mPoints ≠ [] ∧
      (idx = 0 ∨ ∃ j, 1 + 3 * j < d.mPoints.length ∧
        (idx = 1 + 3 * j ∨ idx = 1 + 3 * j + 1 ∨ idx = 1 + 3 * j + 2))) ∧
    (d.mPoints.length % 3 = 1 →
      (∀ idx ∈ d.toPathReads, idx < d.mPoints.length) ∧
      ∀ path, ∃ out, d.toPath path = some out) ∧
    (1 < d.mPoints.length → d.mPoints.length % 3 ≠ 1 →
      ∃ idx ∈ d.toPathReads, d.mPoints.length ≤ idx) ∧
    (∃ e : LottieShapeData, 1 < e.mPoints.length ∧ e.mPoints.length % 3 ≠ 1 ∧
      (∃ idx ∈ e.toPathReads, e.mPoints.length ≤ idx) ∧ ∀ path, e.toPath path = none) := by
  refine ⟨mem_toPathReads d, ?_, ?_, ?_⟩
  · intro hmod
    constructor
    · intro idx hidx
      rw [mem_toPathReads] at hidx
      obtain ⟨_, h0 | ⟨j, hj, hidx⟩⟩ := hidx
      · omega
      · omega
    · intro path
      exact ⟨_, toPath_of_length d path (d.mPoints.length / 3) (by omega)⟩
  · intro h1 hmod
    have hne : d.mPoints ≠ [] := by
      intro h
      rw [h] at h1
      simp at h1
    by_cases h2 : d.mPoints.length % 3 = 2
    · refine ⟨1 + 3 * (d.mPoints.length / 3) + 2,
        (mem_toPathReads d _).mpr ⟨hne, Or.inr ⟨d.mPoints.length / 3, by omega, by omega⟩⟩,
        by omega⟩
    · refine ⟨1 + 3 * (d.mPoints.length / 3 - 1) + 2,
        (mem_toPathReads d _).mpr
          ⟨hne, Or.inr ⟨d.mPoints.length / 3 - 1, by omega, by omega⟩⟩,
        by omega⟩
  · refine ⟨longShape, by decide, by decide, ⟨2, by decide, by decide⟩, ?_⟩
    intro path
    simp [LottieShapeData.toPath, longShape, toPathLoop]

theorem C22_witness :
    (∀ idx ∈ closedShape.toPathReads, idx < closedShape.mPoints.length) ∧
    ∀ path, ∃ out, closedShape.toPath path = some out :=
  (C22_toPath_reads closedShape).2.1 (by decide)

/-! ## Gradient interpolation -/

theorem gradientAddLoop_eq :
    ∀ (l l' : List ℚ), l.length = l'.length →
      gradientAddLoop l l' = some (List.zipWith (fun i x => i + x) l l')
  | [], _, _ => by simp [gradientAddLoop]
  | _ :: _, [], h => by simp at h
  | i :: rest, x :: it, h => by
    have h' : rest.length = it.length := by simpa using h
    simp [gradientAddLoop, gradientAddLoop_eq rest it h']

theorem gradientSubLoop_eq :
    ∀ (l l' : List ℚ), l.length = l'.length →
      gradientSubLoop l l' = some (List.zipWith (fun i x => i - x) l l')
  | [], _, _ => by simp [gradientSubLoop]
  | _ :: _, [], h => by simp at h
  | i :: rest, x :: it, h => by
    have h' : rest.length = it.length := by simpa using h
    simp [gradientSubLoop, gradientSubLoop_eq rest it h']

theorem gradient_add_of_ne (g1 g2 : LottieGradient)
    (h : g1.mGradient.length ≠ g2.mGradient.length) : g1.add g2 = some g1 := by
  simp [LottieGradient.add, h]

theorem gradient_sub_of_ne (g1 g2 : LottieGradient)
    (h : g1.mGradient.length ≠ g2.mGradient.length) : g1.sub g2 = some g1 := by
  simp [LottieGradient.sub, h]

theorem gradient_add_of_eq (g1 g2 : LottieGradient)
    (h : g1.mGradient.length = g2.mGradient.length) :
    g1.add g2 = some ⟨List.zipWith (fun i x => i + x) g1.mGradient g2.mGradient⟩ := by
  simp [LottieGradient.add, h, gradientAddLoop_eq _ _ h]

theorem gradient_sub_of_eq (g1 g2 : LottieGradient)
    (h : g1.mGradient.length = g2.mGradient.length) :
    g1.sub g2 = some ⟨List.zipWith (fun i x => i - x) g1.mGradient g2.mGradient⟩ := by
  simp [LottieGradient.sub, h, gradientSubLoop_eq _ _ h]

theorem lerpGradient_of_ne (start end_ : LottieGradient) (t : ℚ)
    (h : start.mGradient.length ≠ end_.mGradient.length) :
    lerpGradient start end_ t = some start := by
  have h1 : end_.sub start = some end_ := gradient_sub_of_ne end_ start (Ne.symm h)
  have h2 : start.mGradient.length ≠ (LottieGradient.mul t end_).mGradient.length := by
    simpa [LottieGradient.mul] using h
  simp [lerpGradient, h1, gradient_add_of_ne start _ h2]

theorem lerpGradient_of_eq (start end_ : LottieGradient) (t : ℚ)
    (h : start.mGradient.length = end_.mGradient.length) :
    lerpGradient start end_ t
      = some ⟨List.zipWith (fun i x => i + x) start.mGradient
          ((List.zipWith (fun i x => i - x) end_.mGradient start.mGradient).map
            fun i => i * t)⟩ := by
  have h1 := gradient_sub_of_eq end_ start h.symm
  have h2 : start.mGradient.length
      = (LottieGradient.mul t
          ⟨List.zipWith (fun i x => i - x) end_.mGradient start.mGradient⟩).mGradient.length := by
    simp [LottieGradient.mul, h]
  simp only [lerpGradient, h1, Option.bind_eq_bind, Option.some_bind,
    gradient_add_of_eq start _ h2]
  rfl

/-- C24: for gradients of different lengths `g1 + g2` and `g1 - g2` both return
`g1` unchanged, and `lerp(start, end, t)` returns `start` for every `t`; for
equal lengths `n` the result of `lerp` has length `n` and its `i`-th entry is
`start[i] + t * (end[i] - start[i])`.  In every case the three functions have a
result: no element outside either array is read. -/
theorem C24_gradient_lerp (g1 g2 : LottieGradient) (t : ℚ) :
    (g1.mGradient.length ≠ g2.mGradient.length →
      g1.add g2 = some g1 ∧ g1.sub g2 = some g1 ∧ lerpGradient g1 g2 t = some g1) ∧
    (g1.mGradient.length = g2.mGradient.length →
      ∃ r, lerpGradient g1 g2 t = some r ∧
        r.mGradient.length = g1.mGradient.length ∧
        ∀ (i : Nat) (s e : ℚ), g1.mGradient[i]? = some s → g2.mGradient[i]? = some e →
          r.mGradient[i]? = some (s + t * (e - s))) ∧
    (∃ r, g1.add g2 = some r) ∧ (∃ r, g1.sub g2 = some r) ∧
    (∃ r, lerpGradient g1 g2 t = some r) ∧
    Interpolable.lerp g1 g2 t = lerpGradient g1 g2 t := by
  refine ⟨?_, ?_, ?_, ?_, ?_, rfl⟩
  · intro h
    exact ⟨gradient_add_of_ne g1 g2 h, gradient_sub_of_ne g1 g2 h,
      lerpGradient_of_ne g1 g2 t h⟩
  · intro h
    refine ⟨_, lerpGradient_of_eq g1 g2 t h, by simp [h], ?_⟩
    intro i s e hs he
    simp only [List.getElem?_zipWith, List.getElem?_map, hs, he, Option.map_some']
    rw [mul_comm]
  · by_cases h : g1.mGradient.length = g2.mGradient.length
    · exact ⟨_, gradient_add_of_eq g1 g2 h⟩
    · exact ⟨_, gradient_add_of_ne g1 g2 h⟩
  · by_cases h : g1.mGradient.length = g2.mGradient.length
    · exact ⟨_, gradient_sub_of_eq g1 g2 h⟩
    · exact ⟨_, gradient_sub_of_ne g1 g2 h⟩
  · by_cases h : g1.mGradient.length = g2.mGradient.length
    · exact ⟨_, lerpGradient_of_eq g1 g2 t h⟩
    · exact ⟨_, lerpGradient_of_ne g1 g2 t h⟩

theorem C24_witness :
    (threeStopGradient.add twoStopGradient = some threeStopGradient ∧
      threeStopGradient.sub twoStopGradient = some threeStopGradient ∧
      lerpGradient threeStopGradient twoStopGradient (1 / 2) = some threeStopGradient) ∧
    (∃ r, lerpGradient twoStopGradient otherTwoStopGradient (1 / 2) = some r ∧
      r.mGradient.length = twoStopGradient.mGradient.length ∧
      ∀ (i : Nat) (s e : ℚ), twoStopGradient.mGradient[i]? = some s →
        otherTwoStopGradient.mGradient[i]? = some e →
        r.mGradient[i]? = some (s + (1 / 2 : ℚ) * (e - s))) :=
  ⟨(C24_gradient_lerp threeStopGradient twoStopGradient (1 / 2)).1 (by decide),
   (C24_gradient_lerp twoStopGradient otherTwoStopGradient (1 / 2)).2.1 rfl⟩

/-! ## Premultiplied alpha -/

theorem getD_set_byte (l : List Nat) (i j v : Nat) :
    (l.set i v).getD j 0 = if i = j ∧ i < l.length then v else l.getD j 0 := by
  simp only [List.getD_eq_getElem?_getD, List.getElem?_set]
  by_cases h : i = j
  · subst h
    by_cases h2 : i < l.length
    · simp [h2]
    · have h3 : l[i]? = none := by
        rw [List.getElem?_eq_none_iff]; omega
      simp [h2, h3]
  · simp [h]

theorem premultiplyPixel_spec (bits : List Nat) (pix : Nat) (h : pix + 3 < bits.length) :
    ∃ out, premultiplyPixel bits pix = some out ∧ out.length = bits.length ∧
      ∀ j, out.getD j 0
        = if j = pix ∨ j = pix + 1 ∨ j = pix + 2 then
            (bits.getD j 0 * bits.getD (pix + 3) 0) / 255 % 256
          else bits.getD j 0 := by
  have h0 : bits[pix]? = some (bits.getD pix 0) := by
    rw [List.getElem?_eq_getElem (by omega), List.getD_eq_getElem _ _ (by omega)]
  have h1 : bits[pix + 1]? = some (bits.getD (pix + 1) 0) := by
    rw [List.getElem?_eq_getElem (by omega), List.getD_eq_getElem _ _ (by omega)]
  have h2 : bits[pix + 2]? = some (bits.getD (pix + 2) 0) := by
    rw [List.getElem?_eq_getElem (by omega), List.getD_eq_getElem _ _ (by omega)]
  have h3 : bits[pix + 3]? = some (bits.getD (pix + 3) 0) := by
    rw [List.getElem?_eq_getElem (by omega), List.getD_eq_getElem _ _ (by omega)]
  have hout : premultiplyPixel bits pix
      = some (((bits.set pix (bits.getD pix 0 * bits.getD (pix + 3) 0 / 255 % 256)).set
          (pix + 1) (bits.getD (pix + 1) 0 * bits.getD (pix + 3) 0 / 255 % 256)).set
          (pix + 2) (bits.getD (pix + 2) 0 * bits.getD (pix + 3) 0 / 255 % 256)) := by
    simp only [premultiplyPixel, h0, h1, h2, h3, Option.bind_eq_bind, Option.some_bind]
  refine ⟨_, hout, by simp, ?_⟩
  intro j
  simp only [getD_set_byte, List.length_set]
  by_cases e0 : j = pix
  · subst e0
    have n1 : ¬ (j + 2 = j ∧ j + 2 < bits.length) := by omega
    have n2 : ¬ (j + 1 = j ∧ j + 1 < bits.length) := by omega
    have y0 : j = j ∧ j < bits.length := ⟨rfl, by omega⟩
    rw [if_neg n1, if_neg n2, if_pos y0, if_pos (Or.inl rfl)]
  · by_cases e1 : j = pix + 1
    · subst e1
      have n1 : ¬ (pix + 2 = pix + 1 ∧ pix + 2 < bits.length) := by omega
      have y1 : pix + 1 = pix + 1 ∧ pix + 1 < bits.length := ⟨rfl, by omega⟩
      rw [if_neg n1, if_pos y1, if_pos (Or.inr (Or.inl rfl))]
    · by_cases e2 : j = pix + 2
      · subst e2
        have y2 : pix + 2 = pix + 2 ∧ pix + 2 < bits.length := ⟨rfl, by omega⟩
        rw [if_pos y2, if_pos (Or.inr (Or.inr rfl))]
      · have n0 : ¬ (pix = j ∧ pix < bits.length) := by omega
        have n1 : ¬ (pix + 1 = j ∧ pix + 1 < bits.length) := by omega
        have n2 : ¬ (pix + 2 = j ∧ pix + 2 < bits.length) := by omega
        have nn : ¬ (j = pix ∨ j = pix + 1 ∨ j = pix + 2) := by omega
        rw [if_neg n2, if_neg n1, if_neg n0, if_neg nn]

theorem premultiplyAlphaLoop_spec (n : Nat) :
    ∀ (m i fuel : Nat) (cur : List Nat), i + m = n → m < fuel → 4 * n ≤ cur.length →
      ∃ out, premultiplyAlphaLoop (n : Int) fuel (i : Int) (4 * i) cur = some out ∧
        out.length = cur.length ∧
        ∀ j, out.getD j 0
          = if 4 * i ≤ j ∧ j < 4 * n ∧ j % 4 ≠ 3 then
              (cur.getD j 0 * cur.getD (4 * (j / 4) + 3) 0) / 255 % 256
            else cur.getD j 0 := by
  intro m
  induction m with
  | zero =>
    intro i fuel cur hi hfuel hlen
    obtain ⟨fuel, rfl⟩ : ∃ k, fuel = k + 1 := ⟨fuel - 1, by omega⟩
    have hn : ¬ ((i : Int) < (n : Int)) := by omega
    refine ⟨cur, by simp only [premultiplyAlphaLoop, if_neg hn], rfl, ?_⟩
    intro j
    have hc : ¬ (4 * i ≤ j ∧ j < 4 * n ∧ j % 4 ≠ 3) := by omega
    rw [if_neg hc]
  | succ m ih =>
    intro i fuel cur hi hfuel hlen
    obtain ⟨fuel, rfl⟩ : ∃ k, fuel = k + 1 := ⟨fuel - 1, by omega⟩
    have hlt : (i : Int) < (n : Int) := by omega
    obtain ⟨mid, hmid, hmidlen, hmidget⟩ := premultiplyPixel_spec cur (4 * i) (by omega)
    obtain ⟨out, hout, houtlen, houtget⟩ :=
      ih (i + 1) fuel mid (by omega) (by omega) (by omega)
    have hcast : (i : Int) + 1 = ((i + 1 : Nat) : Int) := by push_cast; ring
    have hpix : 4 * i + 4 = 4 * (i + 1) := by ring
    refine ⟨out, ?_, by rw [houtlen, hmidlen], ?_⟩
    · simp only [premultiplyAlphaLoop, if_pos hlt, hmid, Option.bind_eq_bind,
        Option.some_bind, hcast, hpix]
      exact hout
    · intro j
      rw [houtget j, hmidget j, hmidget (4 * (j / 4) + 3)]
      have ha : ¬ (4 * (j / 4) + 3 = 4 * i ∨ 4 * (j / 4) + 3 = 4 * i + 1
          ∨ 4 * (j / 4) + 3 = 4 * i + 2) := by omega
      rw [if_neg ha]
      by_cases c1 : 4 * (i + 1) ≤ j ∧ j < 4 * n ∧ j % 4 ≠ 3
      · have c2 : 4 * i ≤ j ∧ j < 4 * n ∧ j % 4 ≠ 3 := by omega
        have c3 : ¬ (j = 4 * i ∨ j = 4 * i + 1 ∨ j = 4 * i + 2) := by omega
        rw [if_pos c1, if_pos c2, if_neg c3]
      · rw [if_neg c1]
        by_cases c3 : j = 4 * i ∨ j = 4 * i + 1 ∨ j = 4 * i + 2
        · have c2 : 4 * i ≤ j ∧ j < 4 * n ∧ j % 4 ≠ 3 := by omega
          have c4 : 4 * (j / 4) + 3 = 4 * i + 3 := by omega
          rw [if_pos c3, if_pos c2, c4]
        · have c2 : ¬ (4 * i ≤ j ∧ j < 4 * n ∧ j % 4 ≠ 3) := by omega
          rw [if_neg c3, if_neg c2]

theorem getD_lt_of_bytes (bits : List Nat) (hbytes : ∀ x ∈ bits, x < 256) (j : Nat) :
    bits.getD j 0 < 256 := by
  by_cases hj : j < bits.length
  · rw [List.getD_eq_getElem _ _ hj]
    exact hbytes _ (List.getElem_mem _)
  · rw [List.getD_eq_default _ _ (by omega)]
    decide

theorem premultiplyAlpha_spec (bits : List Nat) (width height : Int)
    (hw : 0 ≤ width) (hh : 0 ≤ height)
    (hlen : 4 * (width * height).toNat ≤ bits.length) :
    ∃ out, premultiplyAlpha bits width height = some out ∧ out.length = bits.length ∧
      ∀ j, out.getD j 0
        = if j < 4 * (width * height).toNat ∧ j % 4 ≠ 3 then
            (bits.getD j 0 * bits.getD (4 * (j / 4) + 3) 0) / 255 % 256
          else bits.getD j 0 := by
  have hn : ((width * height).toNat : Int) = width * height :=
    Int.toNat_of_nonneg (mul_nonneg hw hh)
  obtain ⟨out, hout, houtlen, houtget⟩ :=
    premultiplyAlphaLoop_spec (width * height).toNat (width * height).toNat 0
      ((width * height).toNat + 1) bits (by omega) (by omega) hlen
  refine ⟨out, ?_, houtlen, ?_⟩
  · simp only [premultiplyAlpha]
    rw [hn] at hout
    simpa using hout
  · intro j
    rw [houtget j]
    by_cases c : j < 4 * (width * height).toNat ∧ j % 4 ≠ 3
    · have c' : 4 * 0 ≤ j ∧ j < 4 * (width * height).toNat ∧ j % 4 ≠ 3 := ⟨by omega, c⟩
      rw [if_pos c, if_pos c']
    · have c' : ¬ (4 * 0 ≤ j ∧ j < 4 * (width * height).toNat ∧ j % 4 ≠ 3) :=
        fun h => c h.2
      rw [if_neg c, if_neg c']

/-- C25: for a buffer holding `width × height` 4-byte pixels (non-negative
width and height, every byte below 256), `premultiplyAlpha` has a result of the
same length in which each of the first three channels `c` of every pixel is
`⌊c * a / 255⌋` for that pixel's alpha byte `a`, every alpha byte is unchanged,
and every byte from index `4 * width * height` on is unchanged; each colour
channel is then at most its pixel's alpha and at most its original value,
unchanged when `a = 255` and zero when `a = 0`. -/
theorem C25_premultiplyAlpha (bits : List Nat) (width height : Int)
    (hw : 0 ≤ width) (hh : 0 ≤ height)
    (hlen : 4 * (width * height).toNat ≤ bits.length)
    (hbytes : ∀ x ∈ bits, x < 256) :
    ∃ out, premultiplyAlpha bits width height = some out ∧ out.length = bits.length ∧
      (∀ p c, p < (width * height).toNat → c < 3 →
        out.getD (4 * p + c) 0 = bits.getD (4 * p + c) 0 * bits.getD (4 * p + 3) 0 / 255 ∧
        out.getD (4 * p + c) 0 ≤ out.getD (4 * p + 3) 0 ∧
        out.getD (4 * p + c) 0 ≤ bits.getD (4 * p + c) 0 ∧
        (bits.getD (4 * p + 3) 0 = 255 →
          out.getD (4 * p + c) 0 = bits.getD (4 * p + c) 0) ∧
        (bits.getD (4 * p + 3) 0 = 0 → out.getD (4 * p + c) 0 = 0)) ∧
      (∀ p, p < (width * height).toNat →
        out.getD (4 * p + 3) 0 = bits.getD (4 * p + 3) 0) ∧
      (∀ j, 4 * (width * height).toNat ≤ j → out[j]? = bits[j]?) := by
  obtain ⟨out, hout, houtlen, houtget⟩ := premultiplyAlpha_spec bits width height hw hh hlen
  have halpha : ∀ p, p < (width * height).toNat →
      out.getD (4 * p + 3) 0 = bits.getD (4 * p + 3) 0 := by
    intro p _
    rw [houtget]
    have c : ¬ (4 * p + 3 < 4 * (width * height).toNat ∧ (4 * p + 3) % 4 ≠ 3) := by omega
    rw [if_neg c]
  refine ⟨out, hout, houtlen, ?_, halpha, ?_⟩
  · intro p c hp hc
    have hcol : 4 * p + c < 4 * (width * height).toNat ∧ (4 * p + c) % 4 ≠ 3 := by omega
    have hidx : 4 * ((4 * p + c) / 4) + 3 = 4 * p + 3 := by omega
    have hx := getD_lt_of_bytes bits hbytes (4 * p + c)
    have ha := getD_lt_of_bytes bits hbytes (4 * p + 3)
    have hprod : bits.getD (4 * p + c) 0 * bits.getD (4 * p + 3) 0 ≤ 255 * 255 :=
      Nat.mul_le_mul (by omega) (by omega)
    have hsmall : bits.getD (4 * p + c) 0 * bits.getD (4 * p + 3) 0 / 255 < 256 := by
      apply Nat.div_lt_of_lt_mul
      omega
    have hval : out.getD (4 * p + c) 0
        = bits.getD (4 * p + c) 0 * bits.getD (4 * p + 3) 0 / 255 := by
      rw [houtget, if_pos hcol, hidx, Nat.mod_eq_of_lt hsmall]
    refine ⟨hval, ?_, ?_, ?_, ?_⟩
    · rw [halpha p hp, hval]
      apply Nat.div_le_of_le_mul
      exact Nat.mul_le_mul (by omega) (le_refl _)
    · rw [hval]
      apply Nat.div_le_of_le_mul
      rw [Nat.mul_comm]
      exact Nat.mul_le_mul (by omega) (le_refl _)
    · intro h255
      rw [hval, h255, Nat.mul_div_cancel _ (by decide)]
    · intro h0
      rw [hval, h0, Nat.mul_zero, Nat.zero_div]
  · intro j hj
    by_cases hjl : j < bits.length
    · have hjo : j < out.length := by omega
      have hg := houtget j
      have c : ¬ (j < 4 * (width * height).toNat ∧ j % 4 ≠ 3) := by omega
      rw [if_neg c, List.getD_eq_getElem _ _ hjo, List.getD_eq_getElem _ _ hjl] at hg
      rw [List.getElem?_eq_getElem hjo, List.getElem?_eq_getElem hjl, hg]
    · rw [List.getElem?_eq_none_iff.mpr (by omega), List.getElem?_eq_none_iff.mpr (by omega)]

theorem C25_witness :
    ∃ out, premultiplyAlpha twoPixels 2 1 = some out ∧ out.length = twoPixels.length ∧
      (∀ p c, p < ((2 : Int) * 1).toNat → c < 3 →
        out.getD (4 * p + c) 0
          = twoPixels.getD (4 * p + c) 0 * twoPixels.getD (4 * p + 3) 0 / 255 ∧
        out.getD (4 * p + c) 0 ≤ out.getD (4 * p + 3) 0 ∧
        out.getD (4 * p + c) 0 ≤ twoPixels.getD (4 * p + c) 0 ∧
        (twoPixels.getD (4 * p + 3) 0 = 255 →
          out.getD (4 * p + c) 0 = twoPixels.getD (4 * p + c) 0) ∧
        (twoPixels.getD (4 * p + 3) 0 = 0 → out.getD (4 * p + c) 0 = 0)) ∧
      (∀ p, p < ((2 : Int) * 1).toNat →
        out.getD (4 * p + 3) 0 = twoPixels.getD (4 * p + 3) 0) ∧
      (∀ j, 4 * ((2 : Int) * 1).toNat ≤ j → out[j]? = twoPixels[j]?) :=
  C25_premultiplyAlpha twoPixels 2 1 (by decide) (by decide) (by decide) (by decide)

end Rlottie
